import Mathlib

/-!
Verification of the asset-resolution and localization engine of the
website-cloning module (`modules/web_cloner.py`, class `WebCloner`).

The embedding models strings as `List Char` (`Str`).  Python library
primitives used by the module (`str.strip`, slicing, `os.path.splitext`,
`os.path.basename`, `os.path.join`, `os.path.relpath`, `urllib.parse.urljoin`,
`urllib.parse.urlparse`, percent decoding) are translated below; external
collaborators (the HTTP session, BeautifulSoup parsing, the clock, the
filesystem) are modelled as explicit oracles / state:

  * the network is an oracle `Net : Str -> Nat -> Attempt` giving the outcome
    of the GET issued for a URL at a given retry attempt index (full success
    with the streamed chunks, failure before the destination file is opened,
    or failure after some chunks were already written);
  * the filesystem is part of the explicit state `St` (an association list of
    written files plus the list of directories passed to `os.makedirs`);
  * `time.sleep` calls are recorded in `St.sleeps`; asset GETs are recorded in
    `St.fetchLog` as `(url, success?)` pairs (instrumentation only — the root
    page GET of `clone_website` is issued directly on the session, outside
    `download_file`, and is not an asset download, so it is not logged there);
  * BeautifulSoup is modelled by an abstract parser `Str -> Soup`, where
    `Soup` holds exactly the attribute lists the module reads via `find_all`
    (stylesheet hrefs, script srcs, img srcs, style attributes, icon hrefs,
    each in document order), and `str(soup)` serialization is not modelled:
    the rewritten soup written to `index.html` is stored in
    `St.rewrittenHtml` instead.

Floating point delays (`delay=0.5`) are modelled as rationals.
-/

set_option maxRecDepth 8000

namespace WebCloner

abbrev Str := List Char

/-! ### Python string primitives -/

/-- `str.lstrip(chars)`. -/
def pyLStrip (cs : List Char) (s : Str) : Str := s.dropWhile (fun c => c ∈ cs)

/-- `str.rstrip(chars)`. -/
def pyRStrip (cs : List Char) (s : Str) : Str := (pyLStrip cs s.reverse).reverse

/-- `str.strip(chars)`. -/
def pyStrip (cs : List Char) (s : Str) : Str := pyRStrip cs (pyLStrip cs s)

/-- Python slicing `s[:stop]` with a possibly negative stop. -/
def pySliceTo (s : Str) (stop : Int) : Str :=
  s.take (if stop < 0 then ((s.length : Int) + stop).toNat else stop.toNat)

/-- Index of the last occurrence of `c` in `s` (`str.rfind`), if any. -/
def lastIndexOf (c : Char) (s : Str) : Option Nat :=
  (s.reverse.findIdx? (fun x => x = c)).map (fun i => s.length - 1 - i)

/-- `s.replace(chr(92), "/")` — used on generated relative paths. -/
def slashify (s : Str) : Str := s.map (fun c => if c = '\\' then '/' else c)

/-! ### posixpath primitives -/

/-- `os.path.splitext` (POSIX): split off the extension beginning at the last
dot of the basename, unless the basename consists only of leading dots up to
that point. -/
def splitext (p : Str) : Str × Str :=
  match lastIndexOf '.' p with
  | none => (p, [])
  | some d =>
    let f := match lastIndexOf '/' p with
      | none => 0
      | some i => i + 1
    if f ≤ d && ((p.drop f).take (d - f)).any (fun ch => ch ≠ '.') then
      (p.take d, p.drop d)
    else (p, [])

/-- `os.path.basename` (POSIX). -/
def basename (p : Str) : Str :=
  match lastIndexOf '/' p with
  | none => p
  | some i => p.drop (i + 1)

/-- `os.path.dirname` (POSIX). -/
def dirname (p : Str) : Str :=
  match lastIndexOf '/' p with
  | none => []
  | some i =>
    let head := p.take (i + 1)
    if head.all (fun c => c = '/') then head else pyRStrip ['/'] head

/-- `os.path.join` (POSIX, two components). -/
def pathJoin (a b : Str) : Str :=
  if b.head? = some '/' then b
  else if a = [] then b
  else if a.getLast? = some '/' then a ++ b
  else a ++ '/' :: b

/-- Split a list at every occurrence of `c` (`str.split(c)`). -/
def splitOnChar (c : Char) : Str → List Str
  | [] => [[]]
  | ch :: t =>
    let r := splitOnChar c t
    if ch = c then [] :: r
    else
      match r with
      | [] => [[ch]]
      | h :: t2 => (ch :: h) :: t2

/-- Join components with `/` (`'/'.join`). -/
def sepJoin : List Str → Str
  | [] => []
  | h :: t => h ++ (t.map (fun x => '/' :: x)).flatten

/-- Path components with empty parts discarded, as used by `posixpath.relpath`. -/
def splitComps (p : Str) : List Str := (splitOnChar '/' p).filter (fun x => x ≠ [])

/-- Length of the common prefix of two component lists. -/
def commonPrefixLen : List Str → List Str → Nat
  | a :: as', b :: bs => if a = b then commonPrefixLen as' bs + 1 else 0
  | _, _ => 0

/-- `os.path.relpath(p, start)` (POSIX).  Both arguments are taken as given
(the `abspath` normalization CPython applies prepends the same working
directory to both and is the identity on the clean relative paths this module
produces). -/
def relpath (p start : Str) : Str :=
  let pl := splitComps p
  let sl := splitComps start
  let i := commonPrefixLen pl sl
  let rel := List.replicate (sl.length - i) ("..".data) ++ pl.drop i
  if rel = [] then ".".data else sepJoin rel

/-- Value of a hexadecimal digit. -/
def hexVal (c : Char) : Nat :=
  if c.isDigit then c.toNat - '0'.toNat
  else if 'a' ≤ c ∧ c ≤ 'f' then c.toNat - 'a'.toNat + 10
  else c.toNat - 'A'.toNat + 10

/-- Hexadecimal digit test. -/
def isHexDig (c : Char) : Bool :=
  c.isDigit || ('a' ≤ c && c ≤ 'f') || ('A' ≤ c && c ≤ 'F')

/-- Percent-decoding (`urllib.parse.unquote`), single-byte escapes. -/
def unquote : Str → Str
  | '%' :: a :: b :: t =>
    if isHexDig a && isHexDig b then
      Char.ofNat (16 * hexVal a + hexVal b) :: unquote t
    else '%' :: unquote (a :: b :: t)
  | c :: t => c :: unquote t
  | [] => []

/-! ### urllib.parse subset

Queries and fragments do not occur in the asset URLs this module manipulates;
`urlparse`/`urljoin` below cover scheme/netloc/path splitting and RFC-3986
style reference resolution as implemented by CPython `urllib.parse` (dot
segment squashing, absolute-path and network-path references, foreign-scheme
references returned unchanged). -/

/-- Characters CPython accepts inside a URL scheme. -/
def isSchemeChar (c : Char) : Bool := c.isAlphanum || c == '+' || c == '-' || c == '.'

/-- Split `scheme:rest` when the input begins with a valid scheme; the scheme
is lowercased as in `urlsplit`. -/
def schemeSplit (u : Str) : Option (Str × Str) :=
  match u with
  | [] => none
  | c :: _ =>
    if c.isAlpha then
      let pre := u.takeWhile isSchemeChar
      let rest := u.drop pre.length
      match rest with
      | ':' :: r => some (pre.map Char.toLower, r)
      | _ => none
    else none

structure UrlParts where
  scheme : Str
  netloc : Str
  path : Str
  deriving Repr, DecidableEq

/-- `urllib.parse.urlparse`, restricted to scheme/netloc/path. -/
def urlparse (u : Str) : UrlParts :=
  let split := fun (sc : Str) (rest : Str) =>
    match rest with
    | '/' :: '/' :: r =>
      let nl := r.takeWhile (fun c => c ≠ '/' && c ≠ '?' && c ≠ '#')
      let after := r.drop nl.length
      UrlParts.mk sc nl (after.takeWhile (fun c => c ≠ '?' && c ≠ '#'))
    | _ => UrlParts.mk sc [] (rest.takeWhile (fun c => c ≠ '?' && c ≠ '#'))
  match schemeSplit u with
  | some (sc, rest) => split sc rest
  | none => split [] u

/-- Schemes treated as relative-capable by `urllib.parse` (the subset relevant
here; the module only ever joins against `http`/`https` bases). -/
def usesRelative (sc : Str) : Bool :=
  sc = "http".data || sc = "https".data || sc = "ftp".data || sc = []

/-- CPython `urljoin` segment resolution loop (`'..'` pops, `'.'` skipped,
with a trailing empty segment when the reference ends in a dot segment). -/
def resolveSegments (segments : List Str) : List Str :=
  let resolved := segments.foldl (fun acc seg =>
    if seg = "..".data then acc.dropLast
    else if seg = ".".data then acc
    else acc ++ [seg]) []
  match segments.getLast? with
  | some s => if s = ".".data || s = "..".data then resolved ++ [[]] else resolved
  | none => resolved

/-- Reassemble `scheme://netloc` + resolved path (`urlunsplit` with the
CPython `'/'.join(resolved_path) or '/'` fallback). -/
def unsplitResolved (sc nl : Str) (resolved : List Str) : Str :=
  let p := sepJoin resolved
  sc ++ "://".data ++ nl ++ (if p = [] then "/".data else p)

/-- Drop empty middle segments (`segments[1:-1] = filter(None, segments[1:-1])`). -/
def filterMiddle (l : List Str) : List Str :=
  match l with
  | [] => []
  | [x] => [x]
  | h :: t => h :: (t.dropLast.filter (fun x => x ≠ [])) ++ [t.getLastD []]

/-- `urllib.parse.urljoin` (scheme/netloc/path subset). -/
def urljoin (base url : Str) : Str :=
  if base = [] then url
  else if url = [] then base
  else
    let b := urlparse base
    let u := urlparse url
    let uscheme := if (schemeSplit url).isSome then u.scheme else b.scheme
    if uscheme ≠ b.scheme || !usesRelative uscheme then url
    else if u.netloc ≠ [] then
      uscheme ++ "://".data ++ u.netloc ++ u.path
    else if u.path = [] then base
    else if u.path.head? = some '/' then
      unsplitResolved uscheme b.netloc (resolveSegments (splitOnChar '/' u.path))
    else
      let baseParts0 := splitOnChar '/' b.path
      let baseParts :=
        if baseParts0.getLast? ≠ some [] then baseParts0.dropLast else baseParts0
      let segs := filterMiddle (baseParts ++ splitOnChar '/' u.path)
      unsplitResolved uscheme b.netloc (resolveSegments segs)

/-! ### The CSS `url(...)` scanner

The module matches CSS references with the regular expression
`url\(["\']?([^"\')]+)["\']?\)` (`re.findall` / `re.sub`).  Because the body
character class excludes both quote characters and the closing parenthesis,
the backtracking behaviour of the pattern is deterministic and equals the
greedy scan implemented here: after `url(` optionally one quote, then a
non-empty run of body characters, then optionally one quote, then `)`. -/

def isQuoteChar (c : Char) : Bool := c == '"' || c == '\''

def isBodyChar (c : Char) : Bool := !(c == '"' || c == '\'' || c == ')')

/-- After the optional opening quote `q1`: a non-empty greedy run of body
characters, an optional closing quote, then `)`.  On success returns
`(matched-text, captured-group, rest)` with `matched-text ++ rest` equal to
`q1 ++ s2`. -/
def afterBody (q1 s2 : Str) : Option (Str × Str × Str) :=
  let body := s2.takeWhile isBodyChar
  let s3 := s2.dropWhile isBodyChar
  if body = [] then none
  else
    match s3 with
    | c :: t =>
      if isQuoteChar c then
        match t with
        | ')' :: rest => some (q1 ++ body ++ [c, ')'], body, rest)
        | _ => none
      else if c = ')' then some (q1 ++ body ++ [')'], body, t)
      else none
    | [] => none

/-- Match the part of the pattern after the literal `url(`.
On success returns `(matched-text, captured-group, rest)` with
`matched-text ++ rest` equal to the input. -/
def afterParen (s1 : Str) : Option (Str × Str × Str) :=
  match s1 with
  | c :: t => if isQuoteChar c then afterBody [c] t else afterBody [] (c :: t)
  | [] => none

/-- Match the whole `url(...)` pattern at the start of `s`. -/
def tryUrlMatch (s : Str) : Option (Str × Str × Str) :=
  match s with
  | 'u' :: 'r' :: 'l' :: '(' :: s1 =>
    (afterParen s1).map (fun t => ('u' :: 'r' :: 'l' :: '(' :: t.1, t.2.1, t.2.2))
  | _ => none

theorem drop_takeWhile_length (p : Char → Bool) (l : Str) :
    l.drop (l.takeWhile p).length = l.dropWhile p := by
  induction l with
  | nil => rfl
  | cons c t ih =>
    by_cases h : p c
    · simp [List.takeWhile_cons, List.dropWhile_cons, h, ih]
    · simp [List.takeWhile_cons, List.dropWhile_cons, h]

theorem afterBody_spec {q1 s2 m g r : Str} (h : afterBody q1 s2 = some (m, g, r)) :
    m ++ r = q1 ++ s2 ∧ g ≠ [] := by
  have hsplit : s2.takeWhile isBodyChar ++ s2.dropWhile isBodyChar = s2 :=
    List.takeWhile_append_dropWhile isBodyChar s2
  unfold afterBody at h
  simp only [] at h
  split at h
  next => exact absurd h (by simp)
  next hbe =>
    split at h
    next c t hs3p =>
      split at h
      next hqc =>
        split at h
        next rest =>
          simp only [Option.some.injEq, Prod.mk.injEq] at h
          obtain ⟨hm, hg, hr⟩ := h
          subst hm; subst hg; subst hr
          refine ⟨?_, hbe⟩
          conv_rhs => rw [← hsplit, hs3p]
          simp
        next => exact absurd h (by simp)
      next hqc =>
        split at h
        next hcp =>
          simp only [Option.some.injEq, Prod.mk.injEq] at h
          obtain ⟨hm, hg, hr⟩ := h
          subst hm; subst hg; subst hr; subst hcp
          refine ⟨?_, hbe⟩
          conv_rhs => rw [← hsplit, hs3p]
          simp
        next => exact absurd h (by simp)
    next => exact absurd h (by simp)

theorem afterParen_spec {s1 m g r : Str} (h : afterParen s1 = some (m, g, r)) :
    m ++ r = s1 ∧ g ≠ [] := by
  unfold afterParen at h
  split at h
  next c t =>
    by_cases hqc : isQuoteChar c
    · rw [if_pos hqc] at h
      obtain ⟨hmr, hg⟩ := afterBody_spec h
      exact ⟨by simpa using hmr, hg⟩
    · rw [if_neg hqc] at h
      obtain ⟨hmr, hg⟩ := afterBody_spec h
      exact ⟨by simpa using hmr, hg⟩
  next => exact absurd h (by simp)

theorem tryUrlMatch_spec {s w g r : Str} (h : tryUrlMatch s = some (w, g, r)) :
    w ++ r = s ∧ w ≠ [] ∧ g ≠ [] := by
  unfold tryUrlMatch at h
  split at h
  next s1 =>
    rcases hap : afterParen s1 with - | ⟨m, g2, r2⟩ <;> rw [hap] at h
    · exact absurd h (by simp)
    · simp only [Option.map_some', Option.some.injEq, Prod.mk.injEq] at h
      obtain ⟨hw, hg, hr⟩ := h
      obtain ⟨hmr, hgne⟩ := afterParen_spec hap
      subst hw; subst hg; subst hr
      refine ⟨?_, by simp, hgne⟩
      simp [← hmr]
  next => exact absurd h (by simp)

theorem tryUrlMatch_rest_lt {s w g r : Str} (h : tryUrlMatch s = some (w, g, r)) :
    r.length < s.length := by
  obtain ⟨hwr, hwne, -⟩ := tryUrlMatch_spec h
  have hlen := congrArg List.length hwr
  simp only [List.length_append] at hlen
  have hwl : 0 < w.length := List.length_pos.mpr hwne
  omega

/-- `re.findall` for the `url(...)` pattern: scan left to right, at each
position try an anchored match, on success emit the captured group and
continue after the match, on failure advance one character.  Implemented with
a fuel argument equal to the remaining input length. -/
def cssFindallF (fuel : Nat) (s : Str) : List Str :=
  match fuel, s with
  | 0, _ => []
  | _ + 1, [] => []
  | fuel + 1, c :: tail =>
    match tryUrlMatch (c :: tail) with
    | some (_, g, r) => g :: cssFindallF fuel r
    | none => cssFindallF fuel tail

def cssFindall (s : Str) : List Str := cssFindallF s.length s

/-- `re.sub` for the `url(...)` pattern: pieces of the input not belonging to
a match are copied verbatim; each match `w` (with captured group `g`) is
replaced by `f w g`. -/
def cssSubF (f : Str → Str → Str) (fuel : Nat) (s : Str) : Str :=
  match fuel, s with
  | 0, s => s
  | _ + 1, [] => []
  | fuel + 1, c :: tail =>
    match tryUrlMatch (c :: tail) with
    | some (w, g, r) => f w g ++ cssSubF f fuel r
    | none => c :: cssSubF f fuel tail

def cssSub (f : Str → Str → Str) (s : Str) : Str := cssSubF f s.length s

/-- Whitespace class `\s` of Python `re`. -/
def isPySpace (c : Char) : Bool :=
  c == ' ' || c == '\t' || c == '\n' || c == '\r' || c == '\x0b' || c == '\x0c'

/-- Anchored match for the inline-style pattern
`background-image:\s*url\(["\']?([^"\')]+)["\']?\)`; returns the captured
group and the rest after the match. -/
def tryBgMatch (s : Str) : Option (Str × Str) :=
  if ("background-image:".data).isPrefixOf s then
    let s1 := s.drop 17
    let s2 := s1.drop (s1.takeWhile isPySpace).length
    match tryUrlMatch s2 with
    | some (_, g, r) => some (g, r)
    | none => none
  else none

theorem tryBgMatch_rest_lt {s g r : Str} (h : tryBgMatch s = some (g, r)) :
    r.length < s.length := by
  unfold tryBgMatch at h
  by_cases hp : ("background-image:".data).isPrefixOf s
  · simp only [hp, if_true] at h
    rcases hm : tryUrlMatch ((s.drop 17).drop ((s.drop 17).takeWhile isPySpace).length) with
      - | ⟨w2, g2, r2⟩
    · rw [hm] at h; exact absurd h (by simp)
    · rw [hm] at h
      simp only [Option.some.injEq, Prod.mk.injEq] at h
      rcases h with ⟨-, hr⟩
      subst hr
      have h1 := tryUrlMatch_rest_lt hm
      have h2 : ((s.drop 17).drop ((s.drop 17).takeWhile isPySpace).length).length =
          (s.drop 17).length - ((s.drop 17).takeWhile isPySpace).length := by
        simp
        omega
      have h3 : (s.drop 17).length = s.length - 17 := by simp
      have hs : 17 ≤ s.length := by
        have := List.IsPrefix.length_le (List.isPrefixOf_iff_prefix.mp hp)
        simpa using this
      omega
  · simp [hp] at h

/-- `re.findall` for the inline-style background-image pattern. -/
def bgFindallF (fuel : Nat) (s : Str) : List Str :=
  match fuel, s with
  | 0, _ => []
  | _ + 1, [] => []
  | fuel + 1, c :: tail =>
    match tryBgMatch (c :: tail) with
    | some (g, r) => g :: bgFindallF fuel r
    | none => bgFindallF fuel tail

def bgFindall (s : Str) : List Str := bgFindallF s.length s

/-! ### The WebCloner class -/

/-- Constructor parameters of `WebCloner.__init__` (the session headers are
part of the external HTTP collaborator and carry no logic). -/
structure Config where
  timeout : Nat := 30
  delay : Rat := 1/2
  max_retries : Nat := 3
  deriving Repr, DecidableEq

def defaultConfig : Config := {}

/-- Outcome of one GET attempt for a URL: full success with the streamed
chunks; an exception before the destination file is opened (connection
failure, timeout, `raise_for_status`); or an exception after some chunks were
already written to the opened file. -/
inductive Attempt where
  | ok (chunks : List Str)
  | failEarly (err : Str)
  | failMid (chunks : List Str) (err : Str)
  deriving Repr, DecidableEq

/-- The network oracle: outcome of the GET issued for a URL at a given
attempt index. -/
abbrev Net := Str → Nat → Attempt

def Attempt.isFail : Attempt → Bool
  | .ok _ => false
  | _ => true

def Attempt.errMsg : Attempt → Str
  | .ok _ => []
  | .failEarly e => e
  | .failMid _ e => e

/-- The attribute lists `extract_assets_from_html` / `update_html_paths` read
from the parsed document via `find_all`, in document order: hrefs of
`<link rel=stylesheet>`, srcs of `<script src>`, srcs of `<img src>`, values
of inline `style=` attributes, hrefs of
`<link rel in {icon, shortcut icon, apple-touch-icon}>`. -/
structure Soup where
  stylesheets : List Str := []
  scripts : List Str := []
  imgs : List Str := []
  styles : List Str := []
  icons : List Str := []
  deriving Repr, DecidableEq

/-- Mutable state of a `WebCloner` instance plus the modelled environment:
`downloaded_files` and `failed_downloads` are the instance attributes
(`set()` modelled as an append-only duplicate-free list, list resp.); `fs` is
the written-files map (later writes are consed in front, lookups take the
first hit); `dirs` records `os.makedirs` calls; `fetchLog` records each asset
GET as `(url, completed-successfully?)`; `sleeps` records `time.sleep`
durations; `rewrittenHtml` holds the soup written to `index.html`. -/
structure St where
  downloaded_files : List Str := []
  failed_downloads : List (Str × Str) := []
  fs : List (Str × Str) := []
  dirs : List Str := []
  fetchLog : List (Str × Bool) := []
  sleeps : List Rat := []
  rewrittenHtml : Option Soup := none
  deriving Repr, DecidableEq

def initSt : St := {}

def fsLookup (fs : List (Str × Str)) (p : Str) : Option Str :=
  (fs.find? (fun e => e.1 = p)).map (fun e => e.2)

/-- The first two steps of `WebCloner.sanitize_filename`: the character-class
substitution `re.sub(r'[<>:"/\\|?*]', '_', filename)` followed by
`.strip('. ')`. -/
def sanitizedBase (filename : Str) : Str :=
  pyStrip ['.', ' '] (filename.map (fun c =>
    if c ∈ ['<', '>', ':', '"', '/', '\\', '|', '?', '*'] then '_' else c))

/-- `WebCloner.sanitize_filename`. -/
def sanitize_filename (filename : Str) : Str :=
  let f2 := sanitizedBase filename
  let f3 :=
    if 200 < f2.length then
      let ne := splitext f2
      pySliceTo ne.1 (200 - (ne.2.length : Int)) ++ ne.2
    else f2
  if f3 = [] then "unnamed_file".data else f3

/-- `WebCloner.get_file_extension`, at the `content_type=None` call sites
used by this module (`url_to_local_path` passes no content type, so the
mimetypes branches are dead code for every call in the cloner). -/
def get_file_extension (url : Str) : Str :=
  let path := unquote (urlparse url).path
  if '.' ∈ basename path then (splitext path).2 else []

/-- `WebCloner.url_to_local_path`. -/
def url_to_local_path (url : Str) (output_dir : Str) : Str :=
  let path := unquote (urlparse url).path
  let subdir : Str :=
    if (".css".data).isSuffixOf path then "css".data
    else if [".js".data, ".jsx".data, ".ts".data, ".tsx".data].any
        (fun e => e.isSuffixOf path) then "js".data
    else if [".jpg".data, ".jpeg".data, ".png".data, ".gif".data, ".svg".data,
        ".webp".data, ".ico".data].any (fun e => e.isSuffixOf path) then "images".data
    else if [".woff".data, ".woff2".data, ".ttf".data, ".eot".data,
        ".otf".data].any (fun e => e.isSuffixOf path) then "fonts".data
    else "assets".data
  let filename0 := if basename path = [] then "index.html".data else basename path
  let filename1 := sanitize_filename filename0
  let filename2 := if '.' ∈ filename1 then filename1 else filename1 ++ get_file_extension url
  pathJoin (pathJoin output_dir subdir) filename2

/-- The retry loop of `WebCloner.download_file`
(`for attempt in range(self.max_retries)`), processed as the list of attempt
indices; `ks = []` after the current index corresponds to
`attempt == self.max_retries - 1`.  A full success writes the joined chunks,
adds the URL to `downloaded_files` and sleeps `self.delay`; a mid-stream
failure leaves the partially written chunks in the opened file; a non-final
failure sleeps 1 second before the next attempt; the final failure records
`(url, error)` in `failed_downloads` and returns `False`.  (If
`max_retries == 0` the Python loop body never runs and the function falls
off the end returning `None`, which is falsy; modelled as `false`.) -/
def dlLoop (cfg : Config) (net : Net) (url lp : Str) : List Nat → St → Bool × St
  | [], st => (false, st)
  | k :: ks, st =>
    match net url k with
    | .ok chunks =>
      (true, { st with
        fs := (lp, chunks.flatten) :: st.fs,
        downloaded_files := st.downloaded_files ++ [url],
        fetchLog := st.fetchLog ++ [(url, true)],
        sleeps := st.sleeps ++ [cfg.delay] })
    | .failEarly e =>
      let st1 := { st with fetchLog := st.fetchLog ++ [(url, false)] }
      if ks = [] then
        (false, { st1 with failed_downloads := st1.failed_downloads ++ [(url, e)] })
      else dlLoop cfg net url lp ks { st1 with sleeps := st1.sleeps ++ [1] }
    | .failMid chunks e =>
      let st1 := { st with
        fetchLog := st.fetchLog ++ [(url, false)],
        fs := (lp, chunks.flatten) :: st.fs }
      if ks = [] then
        (false, { st1 with failed_downloads := st1.failed_downloads ++ [(url, e)] })
      else dlLoop cfg net url lp ks { st1 with sleeps := st1.sleeps ++ [1] }

/-- `WebCloner.download_file`: skip URLs already in `downloaded_files`,
otherwise `os.makedirs(os.path.dirname(local_path))` and run the retry
loop. -/
def download_file (cfg : Config) (net : Net) (url local_path : Str) (st : St) :
    Bool × St :=
  if url ∈ st.downloaded_files then (true, st)
  else
    dlLoop cfg net url local_path (List.range cfg.max_retries)
      { st with dirs := dirname local_path :: st.dirs }

/-- `WebCloner.extract_css_assets`: every `url(...)` group that does not
start with `data:`/`http://`/`https://` is joined against the base URL;
absolute `http(s)` groups pass through; `data:` groups are dropped. -/
def extract_css_assets (css_content base_url : Str) : List Str :=
  (cssFindall css_content).foldl (fun assets m =>
    if !(("data:".data).isPrefixOf m || ("http://".data).isPrefixOf m ||
        ("https://".data).isPrefixOf m) then
      assets ++ [urljoin base_url m]
    else if ("http://".data).isPrefixOf m || ("https://".data).isPrefixOf m then
      assets ++ [m]
    else assets) []

/-- The `replace_url` closure inside `WebCloner.update_css_paths`: rewrite a
relative reference to the `os.path.relpath` of its mapped local path from the
output directory; leave `data:` and absolute references untouched
(`match.group(0)`). -/
def replace_url (base_url output_dir : Str) (whole grp : Str) : Str :=
  if !(("data:".data).isPrefixOf grp || ("http://".data).isPrefixOf grp ||
      ("https://".data).isPrefixOf grp) then
    let full_url := urljoin base_url grp
    let local_path := url_to_local_path full_url output_dir
    let relative_path := relpath local_path output_dir
    "url(\"".data ++ slashify relative_path ++ "\")".data
  else whole

/-- `WebCloner.update_css_paths`. -/
def update_css_paths (css_content base_url output_dir : Str) : Str :=
  cssSub (replace_url base_url output_dir) css_content

/-- The category lists built by `WebCloner.extract_assets_from_html`
(`fonts` and `other` are initialized and never appended to in the source). -/
structure Assets where
  css : List Str
  js : List Str
  images : List Str
  fonts : List Str
  other : List Str
  deriving Repr, DecidableEq

/-- `WebCloner.extract_assets_from_html`: resolve every non-empty href/src
against the base URL; inline-style background images are matched with the
`background-image:\s*url\(...)` pattern; favicons are appended to `images`. -/
def extract_assets_from_html (soup : Soup) (base_url : Str) : Assets :=
  { css := soup.stylesheets.foldl (fun acc href =>
      if href ≠ [] then acc ++ [urljoin base_url href] else acc) []
    js := soup.scripts.foldl (fun acc src =>
      if src ≠ [] then acc ++ [urljoin base_url src] else acc) []
    images :=
      (soup.imgs.foldl (fun acc src =>
        if src ≠ [] then acc ++ [urljoin base_url src] else acc) [])
      ++ (soup.styles.foldl (fun acc style =>
        acc ++ (bgFindall style).map (fun m => urljoin base_url m)) [])
      ++ (soup.icons.foldl (fun acc href =>
        if href ≠ [] then acc ++ [urljoin base_url href] else acc) [])
    fonts := []
    other := [] }

def totalAssets (a : Assets) : Nat :=
  a.css.length + a.js.length + a.images.length + a.fonts.length + a.other.length

/-- The rewriting applied by `update_html_paths` to one attribute value:
`os.path.relpath(url_to_local_path(urljoin(base,ref)), output_dir)` with
backslashes replaced by forward slashes. -/
def rewriteRef (base_url output_dir ref : Str) : Str :=
  slashify (relpath (url_to_local_path (urljoin base_url ref) output_dir) output_dir)

/-- `WebCloner.update_html_paths`: stylesheet, script, img and icon
attributes are rewritten unconditionally (whether or not the asset was
downloaded); inline `style=` attributes are not touched by this function. -/
def update_html_paths (soup : Soup) (base_url output_dir : Str) : Soup :=
  { stylesheets := soup.stylesheets.map (fun href =>
      if href ≠ [] then rewriteRef base_url output_dir href else href)
    scripts := soup.scripts.map (fun src =>
      if src ≠ [] then rewriteRef base_url output_dir src else src)
    imgs := soup.imgs.map (fun src =>
      if src ≠ [] then rewriteRef base_url output_dir src else src)
    styles := soup.styles
    icons := soup.icons.map (fun href =>
      if href ≠ [] then rewriteRef base_url output_dir href else href) }

def natStr (n : Nat) : Str := (Nat.repr n).data

/-- The `## Failed Downloads` section of `clone_info.md`. -/
def failedSection (failed : List (Str × Str)) : Str :=
  if failed = [] then "None - All assets downloaded successfully!\n".data
  else (failed.map (fun p => "- ".data ++ p.1 ++ " - ".data ++ p.2 ++ ['\n'])).flatten

/-- The header of `clone_info.md`, up to and including the
`## Failed Downloads` heading. -/
def infoHeader (url now : Str) (total_assets : Nat) (st : St) : Str :=
  "# Website Clone Info\n\n**Original URL:** ".data ++ url
    ++ "\n**Clone Date:** ".data ++ now
    ++ "\n**Total Assets Found:** ".data ++ natStr total_assets
    ++ "\n**Successfully Downloaded:** ".data ++ natStr st.downloaded_files.length
    ++ "\n**Failed Downloads:** ".data ++ natStr st.failed_downloads.length
    ++ "\n\n## How to View\n1. Open index.html in your web browser\n2. Or use a local web server\n\n## Failed Downloads\n".data

def infoFooter : Str := "\n---\n*Generated by Reescraping Web Cloner v2.0.0*".data

/-- The text written by `WebCloner.create_info_file` (`now` stands for the
external `time.strftime` result). -/
def create_info_content (url now : Str) (total_assets : Nat) (st : St) : Str :=
  infoHeader url now total_assets st ++ failedSection st.failed_downloads ++ infoFooter

/-- Python `set(...)` over the image list, modelled as first-occurrence
deduplication (CPython iterates a `str` set in an unspecified hash order; no
proved property depends on the iteration order). -/
def pySet (l : List Str) : List Str :=
  l.foldl (fun acc u => if u ∈ acc then acc else acc ++ [u]) []

/-- One iteration of the JS / image download loops of `clone_website`. -/
def dlStep (cfg : Config) (net : Net) (site : Str) (st : St) (u : Str) : St :=
  (download_file cfg net u (url_to_local_path u site) st).2

/-- One iteration of the CSS loop of `clone_website`: download the
stylesheet; on success read it back, extract its asset URLs, rewrite its
internal references and write it back in place (an unreadable file — the URL
was already in `downloaded_files` from a run with a different output
directory, so nothing was written at this path — is skipped by the inner
`except`). -/
def cssStep (cfg : Config) (net : Net) (site : Str) (acc : List Str × St)
    (css_url : Str) : List Str × St :=
  let lp := url_to_local_path css_url site
  let res := download_file cfg net css_url lp acc.2
  if res.1 then
    match fsLookup res.2.fs lp with
    | some css_content =>
      let css_asset_urls := extract_css_assets css_content css_url
      let updated_css := update_css_paths css_content css_url site
      (acc.1 ++ css_asset_urls, { res.2 with fs := (lp, updated_css) :: res.2.fs })
    | none => (acc.1, res.2)
  else (acc.1, res.2)

structure CloneResult where
  url : Str
  output_dir : Str
  html_path : Str
  total_assets : Nat
  downloaded : Nat
  failed : Nat
  deriving Repr, DecidableEq, Inhabited

/-- `WebCloner.clone_website`: create the per-domain output directory, fetch
the root page (one direct GET, no retry — any failure is caught by the outer
`except` and yields `None`, after the directory was already created), extract
first-level assets, run the CSS / JS / image download loops (images are
iterated as `set(assets['images'] + css_assets)`), rewrite the HTML, write
`index.html` and `clone_info.md`, and return the summary dict.  `parseHtml`
stands for BeautifulSoup; `now` for `time.strftime`. -/
def clone_website (cfg : Config) (net : Net) (parseHtml : Str → Soup)
    (now url output_dir : Str) (st : St) : Option CloneResult × St :=
  let domain := (urlparse url).netloc
  let safe_domain := sanitize_filename domain
  let site := pathJoin output_dir safe_domain
  let st0 := { st with dirs := site :: st.dirs }
  match net url 0 with
  | .ok chunks =>
    let soup := parseHtml chunks.flatten
    let assets := extract_assets_from_html soup url
    let total_assets := totalAssets assets
    let cssRes := assets.css.foldl (cssStep cfg net site) ([], st0)
    let css_assets := cssRes.1
    let st1 := cssRes.2
    let st2 := assets.js.foldl (dlStep cfg net site) st1
    let all_images := assets.images ++ css_assets
    let st3 := (pySet all_images).foldl (dlStep cfg net site) st2
    let updated_soup := update_html_paths soup url site
    let html_path := pathJoin site ("index.html".data)
    let st4 := { st3 with rewrittenHtml := some updated_soup }
    let info := create_info_content url now total_assets st4
    let st5 := { st4 with fs := (pathJoin site ("clone_info.md".data), info) :: st4.fs }
    (some { url := url, output_dir := site, html_path := html_path,
            total_assets := total_assets,
            downloaded := st5.downloaded_files.length,
            failed := st5.failed_downloads.length }, st5)
  | .failEarly _ => (none, st0)
  | .failMid _ _ => (none, st0)

/-! ### Concrete scenario instances -/

def exPage : Str := "https://ex.com/".data

def exCssUrl : Str := "https://ex.com/s.css".data

def exCss : Str := "body\x7bbackground:url(/bg.jpg)\x7d".data

/-- Root page linking `/s.css`; the stylesheet and every asset download
succeed. -/
def netCssOk : Net := fun u _ => if u = exCssUrl then .ok [exCss] else .ok ["x".data]

def soupStylesheetOnly : Soup := { stylesheets := ["/s.css".data] }

def runCssOk : Option CloneResult × St :=
  clone_website defaultConfig netCssOk (fun _ => soupStylesheetOnly)
    ("2026-10-12 00:00:00".data) exPage ("result".data) initSt

/-- Root page with the same image referenced twice. -/
def soupImgTwice : Soup := { imgs := ["/a.png".data, "/a.png".data] }

def runImgTwice : Option CloneResult × St :=
  clone_website defaultConfig (fun _ _ => .ok ["x".data]) (fun _ => soupImgTwice)
    ("2026-10-12 00:00:00".data) exPage ("result".data) initSt

/-- Every GET fails — in particular the root page GET. -/
def netRootFail : Net := fun _ _ => .failEarly ("404 Client Error".data)

def runRootFail : Option CloneResult × St :=
  clone_website defaultConfig netRootFail (fun _ => soupStylesheetOnly)
    ("2026-10-12 00:00:00".data) exPage ("result".data) initSt

/-- Root page with one image whose download fails on every attempt. -/
def soupOneImg : Soup := { imgs := ["/a.png".data] }

def netImgFail : Net := fun u _ =>
  if u = "https://ex.com/a.png".data then .failEarly ("boom".data) else .ok ["x".data]

def runImgFail : Option CloneResult × St :=
  clone_website defaultConfig netImgFail (fun _ => soupOneImg)
    ("2026-10-12 00:00:00".data) exPage ("result".data) initSt

/-- A second invocation on the same cloner state, for a different site with
no assets at all. -/
def runSecond : Option CloneResult × St :=
  clone_website defaultConfig netImgFail (fun _ => {})
    ("2026-10-12 00:00:00".data) ("https://two.com/".data) ("result".data) runImgFail.2

/-- CSS with a `data:` URI occurrence and an absolute external reference. -/
def dataCssEx : Str :=
  "url(data:image/png;base64,AAA) url(http://cdn.com/x.png)".data

/-- A filename whose extension part exceeds 200 characters. -/
def longExtName : Str := 'x' :: '.' :: List.replicate 250 'a'

/-- The spec's sanitization boundary input, `"a"*300 + ".png"`. -/
def aPng300 : Str := List.replicate 300 'a' ++ ".png".data

/-! ### Claim theorems -/

/-- Claim C1: the spec requires CSS-internal references to be rewritten
relative to the CSS document's own location (`css/s.css` must reference
`../images/bg.jpg`).  The code instead computes
`os.path.relpath(local_path, output_dir)` — relative to the site root — and
writes `url("images/bg.jpg")` into `css/s.css`, both in `update_css_paths`
itself and in the stylesheet persisted by a full `clone_website` run; the
browser-traversable path relative to the document's directory would have been
`../images/bg.jpg`. -/
theorem claim_C1_code_behavior :
    update_css_paths exCss exCssUrl ("result/ex.com".data)
      = "body\x7bbackground:url(\"images/bg.jpg\")\x7d".data ∧
    update_css_paths exCss exCssUrl ("result/ex.com".data)
      ≠ "body\x7bbackground:url(\"../images/bg.jpg\")\x7d".data ∧
    relpath (url_to_local_path ("https://ex.com/bg.jpg".data) ("result/ex.com".data))
        ("result/ex.com/css".data) = "../images/bg.jpg".data ∧
    fsLookup runCssOk.2.fs ("result/ex.com/css/s.css".data)
      = some ("body\x7bbackground:url(\"images/bg.jpg\")\x7d".data) := by
  decide

/-- Claim C2 counterexample: with a root-page GET that fails, `clone_website`
does return no result, but the site output directory `result/ex.com` has
already been created (`os.makedirs` runs before the root fetch), so "no
output directory for the site is created on disk" is false. -/
theorem claim_C2_counterexample :
    runRootFail.1 = none ∧ ("result/ex.com".data) ∈ runRootFail.2.dirs := by
  decide

/-- Claim C2 amended: for every run whose root-page fetch fails,
`clone_website` returns no result — but the per-site output directory has
already been created by then (it is the one `os.makedirs` call preceding the
root GET). -/
theorem claim_C2_amended (cfg : Config) (net : Net) (parseHtml : Str → Soup)
    (now url output_dir : Str) (st : St)
    (hfail : (net url 0).isFail = true) :
    (clone_website cfg net parseHtml now url output_dir st).1 = none ∧
    pathJoin output_dir (sanitize_filename (urlparse url).netloc)
      ∈ (clone_website cfg net parseHtml now url output_dir st).2.dirs := by
  cases hn : net url 0 with
  | ok chunks => rw [hn] at hfail; simp [Attempt.isFail] at hfail
  | failEarly e =>
    simp only [clone_website, hn]
    exact ⟨trivial, List.mem_cons_self _ _⟩
  | failMid chunks e =>
    simp only [clone_website, hn]
    exact ⟨trivial, List.mem_cons_self _ _⟩

/-- Claim C2 witness: the amended statement at the concrete failing run. -/
theorem claim_C2_witness :
    runRootFail.1 = none ∧
    pathJoin ("result".data) (sanitize_filename (urlparse exPage).netloc)
      ∈ runRootFail.2.dirs :=
  claim_C2_amended defaultConfig netRootFail (fun _ => soupStylesheetOnly)
    ("2026-10-12 00:00:00".data) exPage ("result".data) initSt rfl

/-- Claim C9: in the run summary, `total_assets` counts first-level HTML
references (with duplicates, excluding CSS-discovered assets) while
`downloaded` counts the deduplicated downloaded-URL set; in the stylesheet
run one first-level asset yields `downloaded = 2` (`s.css` plus the CSS-only
`bg.jpg`), and in the duplicate-image run two first-level references yield
`downloaded = 1`; in both, `downloaded + failed ≠ total_assets`. -/
theorem claim_C9 :
    runCssOk.1.map (fun r => (r.total_assets, r.downloaded, r.failed))
      = some (1, 2, 0) ∧
    runImgTwice.1.map (fun r => (r.total_assets, r.downloaded, r.failed))
      = some (2, 1, 0) ∧
    runCssOk.1.map (fun r => decide (r.downloaded + r.failed = r.total_assets))
      = some false ∧
    runImgTwice.1.map (fun r => decide (r.downloaded + r.failed = r.total_assets))
      = some false := by
  decide

/-- Claim C3 counterexample: the image download fails on all attempts, yet
the rewritten HTML references the asset by the mapped local path
`images/a.png`, not by its original remote URL, while the run continues
(a result is returned) and records the failure. -/
theorem claim_C3_counterexample :
    runImgFail.1.isSome = true ∧
    runImgFail.2.failed_downloads
      = [("https://ex.com/a.png".data, "boom".data)] ∧
    runImgFail.2.rewrittenHtml.map (fun s => s.imgs)
      = some ["images/a.png".data] ∧
    ("images/a.png".data) ≠ ("https://ex.com/a.png".data) := by
  decide

/-- Claim C8 counterexample: a second `clone_website` call on the same cloner
state reports `failed = 1` coming entirely from the first run (its own run
added no failure record), so a later run's summary is influenced by an
earlier run on the same cloner. -/
theorem claim_C8_counterexample :
    runImgFail.1.map (fun r => r.failed) = some 1 ∧
    runSecond.1.map (fun r => r.failed) = some 1 ∧
    runSecond.2.failed_downloads = runImgFail.2.failed_downloads := by
  decide

/-- Claim C7 counterexample: on `"x." ++ "a"*250` (extension longer than 200
characters) `sanitize_filename` returns the whole 251-character extension —
`name[:200-len(ext)]` is a negative-stop Python slice — so the result is not
truncated to at most 200 characters. -/
theorem claim_C7_counterexample :
    (sanitize_filename longExtName).length = 251 := by
  decide

/-! ### Helper lemmas: evaluation of the download loop -/

theorem dlLoop_nil (cfg : Config) (net : Net) (url lp : Str) (st : St) :
    dlLoop cfg net url lp [] st = (false, st) := rfl

theorem dlLoop_cons_ok {net : Net} {url : Str} {k : Nat} {chunks : List Str}
    (cfg : Config) (lp : Str) (ks : List Nat) (st : St)
    (h : net url k = .ok chunks) :
    dlLoop cfg net url lp (k :: ks) st = (true, { st with
      fs := (lp, chunks.flatten) :: st.fs,
      downloaded_files := st.downloaded_files ++ [url],
      fetchLog := st.fetchLog ++ [(url, true)],
      sleeps := st.sleeps ++ [cfg.delay] }) := by
  simp [dlLoop, h]

theorem dlLoop_cons_failEarly_last {net : Net} {url : Str} {k : Nat} {e : Str}
    (cfg : Config) (lp : Str) (st : St) (h : net url k = .failEarly e) :
    dlLoop cfg net url lp [k] st = (false, { st with
      fetchLog := st.fetchLog ++ [(url, false)],
      failed_downloads := st.failed_downloads ++ [(url, e)] }) := by
  simp [dlLoop, h]

theorem dlLoop_cons_failEarly_step {net : Net} {url : Str} {k : Nat} {e : Str}
    (cfg : Config) (lp : Str) (ks : List Nat) (st : St)
    (h : net url k = .failEarly e) (hks : ks ≠ []) :
    dlLoop cfg net url lp (k :: ks) st = dlLoop cfg net url lp ks { st with
      fetchLog := st.fetchLog ++ [(url, false)],
      sleeps := st.sleeps ++ [1] } := by
  simp [dlLoop, h, hks]

theorem dlLoop_cons_failMid_last {net : Net} {url : Str} {k : Nat}
    {chunks : List Str} {e : Str}
    (cfg : Config) (lp : Str) (st : St) (h : net url k = .failMid chunks e) :
    dlLoop cfg net url lp [k] st = (false, { st with
      fetchLog := st.fetchLog ++ [(url, false)],
      fs := (lp, chunks.flatten) :: st.fs,
      failed_downloads := st.failed_downloads ++ [(url, e)] }) := by
  simp [dlLoop, h]

theorem dlLoop_cons_failMid_step {net : Net} {url : Str} {k : Nat}
    {chunks : List Str} {e : Str}
    (cfg : Config) (lp : Str) (ks : List Nat) (st : St)
    (h : net url k = .failMid chunks e) (hks : ks ≠ []) :
    dlLoop cfg net url lp (k :: ks) st = dlLoop cfg net url lp ks { st with
      fetchLog := st.fetchLog ++ [(url, false)],
      fs := (lp, chunks.flatten) :: st.fs,
      sleeps := st.sleeps ++ [1] } := by
  simp [dlLoop, h, hks]

/-- Number of successful entries in a fetch-log fragment. -/
def succTrue (L : List (Str × Bool)) : Nat := (L.filter (fun e => e.2)).length

/-- Bundled behaviour of the retry loop: the fetch log grows by entries for
this URL only, with at most one success; `downloaded_files` either stays
unchanged (no success) or gains exactly this URL; `failed_downloads` only
grows; and every newly downloaded URL had a non-failing attempt. -/
theorem dlLoop_spec (cfg : Config) (net : Net) (url lp : Str) :
    ∀ (ks : List Nat) (st : St),
      (∃ L, (dlLoop cfg net url lp ks st).2.fetchLog = st.fetchLog ++ L ∧
        (∀ e ∈ L, e.1 = url) ∧
        succTrue L ≤ 1 ∧
        (succTrue L = 0 ∧
            (dlLoop cfg net url lp ks st).2.downloaded_files = st.downloaded_files
          ∨ (dlLoop cfg net url lp ks st).2.downloaded_files
              = st.downloaded_files ++ [url])) ∧
      (∃ F, (dlLoop cfg net url lp ks st).2.failed_downloads
              = st.failed_downloads ++ F) ∧
      (∀ v, v ∈ (dlLoop cfg net url lp ks st).2.downloaded_files →
        v ∈ st.downloaded_files ∨ (v = url ∧ ∃ k, (net url k).isFail = false)) := by
  intro ks
  induction ks with
  | nil =>
    intro st
    rw [dlLoop_nil]
    exact ⟨⟨[], by simp, by simp, by simp [succTrue], Or.inl ⟨rfl, rfl⟩⟩,
      ⟨[], by simp⟩, fun v hv => Or.inl hv⟩
  | cons k ks ih =>
    intro st
    cases hn : net url k with
    | ok chunks =>
      rw [dlLoop_cons_ok cfg lp ks st hn]
      refine ⟨⟨[(url, true)], rfl, by simp, by simp [succTrue], Or.inr rfl⟩,
        ⟨[], by simp⟩, ?_⟩
      intro v hv
      simp only [List.mem_append, List.mem_singleton] at hv
      rcases hv with hv | hv
      · exact Or.inl hv
      · exact Or.inr ⟨hv, k, by simp [hn, Attempt.isFail]⟩
    | failEarly e =>
      by_cases hks : ks = []
      · subst hks
        rw [dlLoop_cons_failEarly_last cfg lp st hn]
        exact ⟨⟨[(url, false)], rfl, by simp, by simp [succTrue],
          Or.inl ⟨by simp [succTrue], rfl⟩⟩, ⟨[(url, e)], rfl⟩,
          fun v hv => Or.inl hv⟩
      · rw [dlLoop_cons_failEarly_step cfg lp ks st hn hks]
        obtain ⟨⟨L, hlog, hLurl, hLc, hdl⟩, ⟨F, hF⟩, hmem⟩ := ih _
        refine ⟨⟨(url, false) :: L, ?_, ?_, ?_, ?_⟩, ⟨F, by simpa using hF⟩, ?_⟩
        · simpa using hlog
        · intro x hx
          rcases List.mem_cons.mp hx with hx | hx
          · rw [hx]
          · exact hLurl _ hx
        · simpa [succTrue] using hLc
        · rcases hdl with ⟨hc, hd⟩ | hd
          · exact Or.inl ⟨by simpa [succTrue] using hc, by simpa using hd⟩
          · exact Or.inr (by simpa using hd)
        · intro v hv
          rcases hmem v hv with hv2 | hv2
          · exact Or.inl (by simpa using hv2)
          · exact Or.inr hv2
    | failMid chunks e =>
      by_cases hks : ks = []
      · subst hks
        rw [dlLoop_cons_failMid_last cfg lp st hn]
        exact ⟨⟨[(url, false)], rfl, by simp, by simp [succTrue],
          Or.inl ⟨by simp [succTrue], rfl⟩⟩, ⟨[(url, e)], rfl⟩,
          fun v hv => Or.inl hv⟩
      · rw [dlLoop_cons_failMid_step cfg lp ks st hn hks]
        obtain ⟨⟨L, hlog, hLurl, hLc, hdl⟩, ⟨F, hF⟩, hmem⟩ := ih _
        refine ⟨⟨(url, false) :: L, ?_, ?_, ?_, ?_⟩, ⟨F, by simpa using hF⟩, ?_⟩
        · simpa using hlog
        · intro x hx
          rcases List.mem_cons.mp hx with hx | hx
          · rw [hx]
          · exact hLurl _ hx
        · simpa [succTrue] using hLc
        · rcases hdl with ⟨hc, hd⟩ | hd
          · exact Or.inl ⟨by simpa [succTrue] using hc, by simpa using hd⟩
          · exact Or.inr (by simpa using hd)
        · intro v hv
          rcases hmem v hv with hv2 | hv2
          · exact Or.inl (by simpa using hv2)
          · exact Or.inr hv2

def Attempt.chunks : Attempt → List Str
  | .ok cs => cs
  | .failEarly _ => []
  | .failMid cs _ => cs

theorem getLastD_irrel {l : List Nat} (h : l ≠ []) (a b : Nat) :
    l.getLastD a = l.getLastD b := by
  rw [List.getLastD_eq_getLast?, List.getLastD_eq_getLast?,
    List.getLast?_eq_getLast l h]
  rfl

/-- When every attempt fails: result `False`, one log entry and one retry
sleep per attempt (minus the last), one failure record carrying the last
attempt's error, and no change to `downloaded_files`. -/
theorem dlLoop_allFail (cfg : Config) (net : Net) (url lp : Str) :
    ∀ (ks : List Nat) (st : St), ks ≠ [] →
      (∀ k ∈ ks, (net url k).isFail = true) →
      (dlLoop cfg net url lp ks st).1 = false ∧
      (dlLoop cfg net url lp ks st).2.fetchLog
        = st.fetchLog ++ List.replicate ks.length (url, false) ∧
      (dlLoop cfg net url lp ks st).2.sleeps
        = st.sleeps ++ List.replicate (ks.length - 1) 1 ∧
      (dlLoop cfg net url lp ks st).2.failed_downloads
        = st.failed_downloads ++ [(url, (net url (ks.getLastD 0)).errMsg)] ∧
      (dlLoop cfg net url lp ks st).2.downloaded_files = st.downloaded_files := by
  intro ks
  induction ks with
  | nil => intro st h; exact absurd rfl h
  | cons k ks ih =>
    intro st hne hf
    have hk : (net url k).isFail = true := hf k (List.mem_cons_self k ks)
    cases hn : net url k with
    | ok chunks => rw [hn] at hk; simp [Attempt.isFail] at hk
    | failEarly e =>
      by_cases hks : ks = []
      · subst hks
        rw [dlLoop_cons_failEarly_last cfg lp st hn]
        exact ⟨rfl, by simp, by simp, by simp [hn, Attempt.errMsg], rfl⟩
      · rw [dlLoop_cons_failEarly_step cfg lp ks st hn hks]
        obtain ⟨h1, h2, h3, h4, h5⟩ :=
          ih _ hks (fun k2 hk2 => hf k2 (List.mem_cons_of_mem _ hk2))
        have hlen : 1 ≤ ks.length := List.length_pos.mpr hks
        refine ⟨h1, ?_, ?_, ?_, by simpa using h5⟩
        · rw [h2]
          simp only [List.length_cons]
          rw [List.replicate_succ]
          simp
        · rw [h3]
          simp only [List.length_cons, Nat.add_sub_cancel]
          have : ks.length = (ks.length - 1) + 1 := by omega
          rw [this, List.replicate_succ]
          simp
        · rw [h4]
          simp only [List.getLastD_cons]
          rw [getLastD_irrel hks k 0]
    | failMid chunks e =>
      by_cases hks : ks = []
      · subst hks
        rw [dlLoop_cons_failMid_last cfg lp st hn]
        exact ⟨rfl, by simp, by simp, by simp [hn, Attempt.errMsg], rfl⟩
      · rw [dlLoop_cons_failMid_step cfg lp ks st hn hks]
        obtain ⟨h1, h2, h3, h4, h5⟩ :=
          ih _ hks (fun k2 hk2 => hf k2 (List.mem_cons_of_mem _ hk2))
        have hlen : 1 ≤ ks.length := List.length_pos.mpr hks
        refine ⟨h1, ?_, ?_, ?_, by simpa using h5⟩
        · rw [h2]
          simp only [List.length_cons]
          rw [List.replicate_succ]
          simp
        · rw [h3]
          simp only [List.length_cons, Nat.add_sub_cancel]
          have : ks.length = (ks.length - 1) + 1 := by omega
          rw [this, List.replicate_succ]
          simp
        · rw [h4]
          simp only [List.getLastD_cons]
          rw [getLastD_irrel hks k 0]

/-- When every attempt fails mid-stream, the partially written chunks of the
last attempt are what remains on disk at `lp`. -/
theorem dlLoop_failMid_fs (cfg : Config) (net : Net) (url lp : Str) :
    ∀ (ks : List Nat) (st : St), ks ≠ [] →
      (∀ k ∈ ks, ∃ cs e, net url k = .failMid cs e) →
      fsLookup (dlLoop cfg net url lp ks st).2.fs lp
        = some ((net url (ks.getLastD 0)).chunks.flatten) := by
  intro ks
  induction ks with
  | nil => intro st h; exact absurd rfl h
  | cons k ks ih =>
    intro st hne hf
    obtain ⟨cs, e, hn⟩ := hf k (List.mem_cons_self k ks)
    by_cases hks : ks = []
    · subst hks
      rw [dlLoop_cons_failMid_last cfg lp st hn]
      simp [fsLookup, hn, Attempt.chunks]
    · rw [dlLoop_cons_failMid_step cfg lp ks st hn hks]
      rw [ih _ hks (fun k2 hk2 => hf k2 (List.mem_cons_of_mem _ hk2))]
      rw [List.getLastD_cons, getLastD_irrel hks k 0]

/-! ### Helper lemmas: download_file -/

theorem download_file_mem (cfg : Config) (net : Net) (u lp : Str) (st : St)
    (h : u ∈ st.downloaded_files) :
    download_file cfg net u lp st = (true, st) := by
  simp [download_file, h]

theorem download_file_not_mem (cfg : Config) (net : Net) (u lp : Str) (st : St)
    (h : u ∉ st.downloaded_files) :
    download_file cfg net u lp st
      = dlLoop cfg net u lp (List.range cfg.max_retries)
          { st with dirs := dirname lp :: st.dirs } := by
  simp [download_file, h]

theorem getLastD_range (n : Nat) (h : 1 ≤ n) :
    (List.range n).getLastD 0 = n - 1 := by
  cases n with
  | zero => omega
  | succ m => rw [List.range_succ]; simp

/-- `download_file` on a URL absent from `downloaded_files` whose every
attempt fails. -/
theorem download_file_allFail (cfg : Config) (net : Net) (u lp : Str) (st : St)
    (hmax : 1 ≤ cfg.max_retries) (hu : u ∉ st.downloaded_files)
    (hf : ∀ k, k < cfg.max_retries → (net u k).isFail = true) :
    (download_file cfg net u lp st).1 = false ∧
    (download_file cfg net u lp st).2.fetchLog
      = st.fetchLog ++ List.replicate cfg.max_retries (u, false) ∧
    (download_file cfg net u lp st).2.sleeps
      = st.sleeps ++ List.replicate (cfg.max_retries - 1) 1 ∧
    (download_file cfg net u lp st).2.failed_downloads
      = st.failed_downloads ++ [(u, (net u (cfg.max_retries - 1)).errMsg)] ∧
    (download_file cfg net u lp st).2.downloaded_files = st.downloaded_files ∧
    (download_file cfg net u lp st).2.dirs = dirname lp :: st.dirs := by
  rw [download_file_not_mem cfg net u lp st hu]
  have hne : List.range cfg.max_retries ≠ [] := by
    simp [List.range_eq_nil]
    omega
  obtain ⟨h1, h2, h3, h4, h5⟩ := dlLoop_allFail cfg net u lp
    (List.range cfg.max_retries) { st with dirs := dirname lp :: st.dirs } hne
    (fun k hk => hf k (List.mem_range.mp hk))
  rw [getLastD_range cfg.max_retries hmax] at h4
  refine ⟨h1, by simpa using h2, by simpa using h3, by simpa using h4,
    by simpa using h5, ?_⟩
  have hdirs : ∀ ks st2, (dlLoop cfg net u lp ks st2).2.dirs = st2.dirs := by
    intro ks
    induction ks with
    | nil => intro st2; rfl
    | cons k ks ih =>
      intro st2
      cases hn : net u k with
      | ok chunks => rw [dlLoop_cons_ok cfg lp ks st2 hn]
      | failEarly e =>
        by_cases hks : ks = []
        · subst hks; rw [dlLoop_cons_failEarly_last cfg lp st2 hn]
        · rw [dlLoop_cons_failEarly_step cfg lp ks st2 hn hks, ih _]
      | failMid chunks e =>
        by_cases hks : ks = []
        · subst hks; rw [dlLoop_cons_failMid_last cfg lp st2 hn]
        · rw [dlLoop_cons_failMid_step cfg lp ks st2 hn hks, ih _]
  rw [hdirs]

/-- `download_file` on a URL absent from `downloaded_files` whose every
attempt fails mid-stream: the last attempt's partial chunks remain at the
local path. -/
theorem download_file_failMid (cfg : Config) (net : Net) (u lp : Str) (st : St)
    (hmax : 1 ≤ cfg.max_retries) (hu : u ∉ st.downloaded_files)
    (hf : ∀ k, k < cfg.max_retries → ∃ cs e, net u k = .failMid cs e) :
    fsLookup (download_file cfg net u lp st).2.fs lp
      = some ((net u (cfg.max_retries - 1)).chunks.flatten) := by
  rw [download_file_not_mem cfg net u lp st hu]
  have hne : List.range cfg.max_retries ≠ [] := by
    simp [List.range_eq_nil]
    omega
  have h := dlLoop_failMid_fs cfg net u lp (List.range cfg.max_retries)
    { st with dirs := dirname lp :: st.dirs } hne
    (fun k hk => hf k (List.mem_range.mp hk))
  rwa [getLastD_range cfg.max_retries hmax] at h

/-- Bundled `download_file` behaviour (both the skip branch and the loop):
log entries are for this URL only with at most one success; a success puts
the URL into `downloaded_files`; `failed_downloads` only grows;
`downloaded_files` grows by at most this URL, and only when some attempt
does not fail. -/
theorem download_file_spec (cfg : Config) (net : Net) (u lp : Str) (st : St) :
    (∃ L, (download_file cfg net u lp st).2.fetchLog = st.fetchLog ++ L ∧
      (∀ e ∈ L, e.1 = u) ∧
      succTrue L ≤ 1 ∧
      (succTrue L = 0 ∧
          (download_file cfg net u lp st).2.downloaded_files = st.downloaded_files
        ∨ (download_file cfg net u lp st).2.downloaded_files
            = st.downloaded_files ++ [u])) ∧
    (∃ F, (download_file cfg net u lp st).2.failed_downloads
            = st.failed_downloads ++ F) ∧
    (∀ v, v ∈ (download_file cfg net u lp st).2.downloaded_files →
      v ∈ st.downloaded_files ∨ (v = u ∧ ∃ k, (net u k).isFail = false)) := by
  by_cases hu : u ∈ st.downloaded_files
  · rw [download_file_mem cfg net u lp st hu]
    exact ⟨⟨[], by simp, by simp, by simp [succTrue], Or.inl ⟨rfl, rfl⟩⟩,
      ⟨[], by simp⟩, fun v hv => Or.inl hv⟩
  · rw [download_file_not_mem cfg net u lp st hu]
    obtain ⟨⟨L, h1, h2, h3, h4⟩, ⟨F, h5⟩, h6⟩ :=
      dlLoop_spec cfg net u lp (List.range cfg.max_retries)
        { st with dirs := dirname lp :: st.dirs }
    exact ⟨⟨L, by simpa using h1, h2, h3, by simpa using h4⟩,
      ⟨F, by simpa using h5⟩, fun v hv => by simpa using h6 v hv⟩

/-! ### The per-URL dedup invariant -/

def succCount (u : Str) (log : List (Str × Bool)) : Nat :=
  (log.filter (fun e => decide (e.1 = u) && e.2)).length

/-- `u` has been successfully fetched at most once, and not at all unless it
is in `downloaded_files`. -/
def DedupInv (u : Str) (st : St) : Prop :=
  succCount u st.fetchLog ≤ 1 ∧
  (u ∉ st.downloaded_files → succCount u st.fetchLog = 0)

theorem succCount_append (u : Str) (a b : List (Str × Bool)) :
    succCount u (a ++ b) = succCount u a + succCount u b := by
  simp [succCount, List.filter_append]

theorem succCount_eq_succTrue_of_url (u : Str) (L : List (Str × Bool))
    (h : ∀ e ∈ L, e.1 = u) : succCount u L = succTrue L := by
  unfold succCount succTrue
  congr 1
  apply List.filter_congr
  intro e he
  simp [h e he]

theorem succCount_eq_zero_of_ne (u : Str) (L : List (Str × Bool))
    (h : ∀ e ∈ L, e.1 ≠ u) : succCount u L = 0 := by
  unfold succCount
  rw [List.length_eq_zero]
  apply List.filter_eq_nil_iff.mpr
  intro e he
  simp [h e he]

theorem download_file_dedupInv (cfg : Config) (net : Net) (v u lp : Str)
    (st : St) (h : DedupInv u st) :
    DedupInv u (download_file cfg net v lp st).2 := by
  obtain ⟨⟨L, hlog, hLurl, hLc, hdl⟩, -, hmem⟩ := download_file_spec cfg net v lp st
  obtain ⟨hc1, hc0⟩ := h
  by_cases hvu : v = u
  · subst hvu
    constructor
    · rw [hlog, succCount_append]
      by_cases hu : v ∈ st.downloaded_files
      · -- then download_file picked the skip branch: L = [] is not known here,
        -- but succTrue L ≤ 1 and succCount st.fetchLog = ... use bound directly
        have hLu := succCount_eq_succTrue_of_url v L hLurl
        -- cannot bound succCount st.fetchLog + succTrue L by 1 in general here:
        -- when v is already downloaded the loop is skipped and L = [].
        rw [download_file_mem cfg net v lp st hu] at hlog
        have : st.fetchLog = st.fetchLog ++ L := hlog
        have hL : L = [] := by
          have h9 := congrArg List.length this
          simp at h9
          exact h9
        subst hL
        simpa using hc1
      · have h0 := hc0 hu
        rw [succCount_eq_succTrue_of_url v L hLurl, h0]
        omega
    · intro hu2
      rw [hlog, succCount_append]
      have hnotin : v ∉ st.downloaded_files := by
        intro hin
        rcases hdl with ⟨-, hd⟩ | hd
        · rw [hd] at hu2; exact hu2 hin
        · rw [hd] at hu2
          exact hu2 (List.mem_append_left _ hin)
      rw [hc0 hnotin, succCount_eq_succTrue_of_url v L hLurl]
      rcases hdl with ⟨hz, -⟩ | hd
      · omega
      · rw [hd] at hu2
        exact absurd (List.mem_append_right _ (List.mem_singleton.mpr rfl)) hu2
  · have hLne : ∀ e ∈ L, e.1 ≠ u := fun e he => by rw [hLurl e he]; exact hvu
    have hz := succCount_eq_zero_of_ne u L hLne
    constructor
    · rw [hlog, succCount_append, hz]
      omega
    · intro hu2
      have hnotin : u ∉ st.downloaded_files := by
        intro hin
        rcases hdl with ⟨-, hd⟩ | hd
        · rw [hd] at hu2; exact hu2 hin
        · rw [hd] at hu2
          exact hu2 (List.mem_append_left _ hin)
      rw [hlog, succCount_append, hz, hc0 hnotin]

/-! ### Step and fold lemmas -/

/-- Record state only grows: `failed_downloads` and `downloaded_files` of the
second state extend those of the first. -/
def GrowsOnly (st st2 : St) : Prop :=
  (∃ F, st2.failed_downloads = st.failed_downloads ++ F) ∧
  (∃ D, st2.downloaded_files = st.downloaded_files ++ D)

theorem GrowsOnly.refl (st : St) : GrowsOnly st st :=
  ⟨⟨[], by simp⟩, ⟨[], by simp⟩⟩

theorem GrowsOnly.trans {a b c : St} (h1 : GrowsOnly a b) (h2 : GrowsOnly b c) :
    GrowsOnly a c := by
  obtain ⟨⟨F1, hF1⟩, ⟨D1, hD1⟩⟩ := h1
  obtain ⟨⟨F2, hF2⟩, ⟨D2, hD2⟩⟩ := h2
  exact ⟨⟨F1 ++ F2, by rw [hF2, hF1, List.append_assoc]⟩,
    ⟨D1 ++ D2, by rw [hD2, hD1, List.append_assoc]⟩⟩

theorem download_file_grows (cfg : Config) (net : Net) (u lp : Str) (st : St) :
    GrowsOnly st (download_file cfg net u lp st).2 := by
  obtain ⟨⟨L, -, -, -, hdl⟩, hF, -⟩ := download_file_spec cfg net u lp st
  refine ⟨hF, ?_⟩
  rcases hdl with ⟨-, hd⟩ | hd
  · exact ⟨[], by simp [hd]⟩
  · exact ⟨[u], hd⟩

theorem dlStep_grows (cfg : Config) (net : Net) (site : Str) (st : St) (x : Str) :
    GrowsOnly st (dlStep cfg net site st x) :=
  download_file_grows cfg net x (url_to_local_path x site) st

theorem cssStep_grows (cfg : Config) (net : Net) (site : Str)
    (acc : List Str × St) (x : Str) :
    GrowsOnly acc.2 (cssStep cfg net site acc x).2 := by
  have hd := download_file_grows cfg net x (url_to_local_path x site) acc.2
  unfold cssStep
  dsimp only
  split
  · split
    · exact hd
    · exact hd
  · exact hd

theorem foldl_dlStep_grows (cfg : Config) (net : Net) (site : Str) :
    ∀ (l : List Str) (st : St), GrowsOnly st (l.foldl (dlStep cfg net site) st) := by
  intro l
  induction l with
  | nil => intro st; exact GrowsOnly.refl st
  | cons x l ih =>
    intro st
    exact (dlStep_grows cfg net site st x).trans (ih _)

theorem foldl_cssStep_grows (cfg : Config) (net : Net) (site : Str) :
    ∀ (l : List Str) (acc : List Str × St),
      GrowsOnly acc.2 (l.foldl (cssStep cfg net site) acc).2 := by
  intro l
  induction l with
  | nil => intro acc; exact GrowsOnly.refl acc.2
  | cons x l ih =>
    intro acc
    exact (cssStep_grows cfg net site acc x).trans (ih _)

theorem dlStep_dedupInv (cfg : Config) (net : Net) (site u : Str) (st : St)
    (x : Str) (h : DedupInv u st) : DedupInv u (dlStep cfg net site st x) :=
  download_file_dedupInv cfg net x u (url_to_local_path x site) st h

theorem cssStep_dedupInv (cfg : Config) (net : Net) (site u : Str)
    (acc : List Str × St) (x : Str) (h : DedupInv u acc.2) :
    DedupInv u (cssStep cfg net site acc x).2 := by
  have hd := download_file_dedupInv cfg net x u (url_to_local_path x site) acc.2 h
  unfold cssStep
  dsimp only
  split
  · split
    · exact hd
    · exact hd
  · exact hd

theorem foldl_dlStep_dedupInv (cfg : Config) (net : Net) (site u : Str) :
    ∀ (l : List Str) (st : St), DedupInv u st →
      DedupInv u (l.foldl (dlStep cfg net site) st) := by
  intro l
  induction l with
  | nil => intro st h; exact h
  | cons x l ih =>
    intro st h
    exact ih _ (dlStep_dedupInv cfg net site u st x h)

theorem foldl_cssStep_dedupInv (cfg : Config) (net : Net) (site u : Str) :
    ∀ (l : List Str) (acc : List Str × St), DedupInv u acc.2 →
      DedupInv u (l.foldl (cssStep cfg net site) acc).2 := by
  intro l
  induction l with
  | nil => intro acc h; exact h
  | cons x l ih =>
    intro acc h
    exact ih _ (cssStep_dedupInv cfg net site u acc x h)

/-- A URL whose every attempt fails never enters `downloaded_files`. -/
theorem download_file_notDownloaded (cfg : Config) (net : Net) (w lp u : Str)
    (st : St) (hfail : ∀ k, (net u k).isFail = true)
    (hu : u ∉ st.downloaded_files) :
    u ∉ (download_file cfg net w lp st).2.downloaded_files := by
  intro hin
  rcases (download_file_spec cfg net w lp st).2.2 u hin with h | ⟨heq, k, hk⟩
  · exact hu h
  · rw [← heq, hfail k] at hk
    exact absurd hk (by simp)

theorem dlStep_notDownloaded (cfg : Config) (net : Net) (site u : Str)
    (st : St) (x : Str) (hfail : ∀ k, (net u k).isFail = true)
    (hu : u ∉ st.downloaded_files) :
    u ∉ (dlStep cfg net site st x).downloaded_files :=
  download_file_notDownloaded cfg net x (url_to_local_path x site) u st hfail hu

theorem cssStep_notDownloaded (cfg : Config) (net : Net) (site u : Str)
    (acc : List Str × St) (x : Str) (hfail : ∀ k, (net u k).isFail = true)
    (hu : u ∉ acc.2.downloaded_files) :
    u ∉ (cssStep cfg net site acc x).2.downloaded_files := by
  have hd := download_file_notDownloaded cfg net x (url_to_local_path x site)
    u acc.2 hfail hu
  unfold cssStep
  dsimp only
  split
  · split
    · exact hd
    · exact hd
  · exact hd

theorem foldl_dlStep_notDownloaded (cfg : Config) (net : Net) (site u : Str)
    (hfail : ∀ k, (net u k).isFail = true) :
    ∀ (l : List Str) (st : St), u ∉ st.downloaded_files →
      u ∉ (l.foldl (dlStep cfg net site) st).downloaded_files := by
  intro l
  induction l with
  | nil => intro st h; exact h
  | cons x l ih =>
    intro st h
    exact ih _ (dlStep_notDownloaded cfg net site u st x hfail h)

theorem foldl_cssStep_notDownloaded (cfg : Config) (net : Net) (site u : Str)
    (hfail : ∀ k, (net u k).isFail = true) :
    ∀ (l : List Str) (acc : List Str × St), u ∉ acc.2.downloaded_files →
      u ∉ (l.foldl (cssStep cfg net site) acc).2.downloaded_files := by
  intro l
  induction l with
  | nil => intro acc h; exact h
  | cons x l ih =>
    intro acc h
    exact ih _ (cssStep_notDownloaded cfg net site u acc x hfail h)

/-- Once the image loop reaches a URL whose every attempt fails, the failure
record with the last attempt's error ends up in `failed_downloads`. -/
theorem foldl_dlStep_fail_mem (cfg : Config) (net : Net) (site u : Str)
    (hmax : 1 ≤ cfg.max_retries) (hfail : ∀ k, (net u k).isFail = true) :
    ∀ (l : List Str) (st : St), u ∈ l → u ∉ st.downloaded_files →
      (u, (net u (cfg.max_retries - 1)).errMsg)
        ∈ (l.foldl (dlStep cfg net site) st).failed_downloads := by
  intro l
  induction l with
  | nil => intro st h; simp at h
  | cons x l ih =>
    intro st hmem hu
    by_cases hx : x = u
    · subst hx
      obtain ⟨-, -, -, h4, -, -⟩ := download_file_allFail cfg net x
        (url_to_local_path x site) st hmax hu (fun k _ => hfail k)
      have hmem2 : (x, (net x (cfg.max_retries - 1)).errMsg)
          ∈ (dlStep cfg net site st x).failed_downloads := by
        have h4D : (dlStep cfg net site st x).failed_downloads
            = st.failed_downloads ++ [(x, (net x (cfg.max_retries - 1)).errMsg)] := h4
        rw [h4D]
        exact List.mem_append_right _ (List.mem_singleton.mpr rfl)
      obtain ⟨⟨F, hF⟩, -⟩ := foldl_dlStep_grows cfg net site l (dlStep cfg net site st x)
      simp only [List.foldl_cons]
      rw [hF]
      exact List.mem_append_left _ hmem2
    · have hmem2 : u ∈ l := by
        rcases List.mem_cons.mp hmem with h | h
        · exact absurd h.symm hx
        · exact h
      have hu2 : u ∉ (dlStep cfg net site st x).downloaded_files :=
        dlStep_notDownloaded cfg net site u st x hfail hu
      simp only [List.foldl_cons]
      exact ih _ hmem2 hu2

/-! ### clone_website branch evaluation -/

theorem clone_website_ok {net : Net} {url : Str} {chunks : List Str}
    (cfg : Config) (parseHtml : Str → Soup) (now output_dir : Str) (st : St)
    (hn : net url 0 = .ok chunks) :
    clone_website cfg net parseHtml now url output_dir st =
      (let site := pathJoin output_dir (sanitize_filename (urlparse url).netloc)
       let soup := parseHtml chunks.flatten
       let assets := extract_assets_from_html soup url
       let cssRes := assets.css.foldl (cssStep cfg net site)
         ([], { st with dirs := site :: st.dirs })
       let st2 := assets.js.foldl (dlStep cfg net site) cssRes.2
       let st3 := (pySet (assets.images ++ cssRes.1)).foldl (dlStep cfg net site) st2
       let st4 := { st3 with rewrittenHtml := some (update_html_paths soup url site) }
       let st5 := { st4 with fs := (pathJoin site ("clone_info.md".data),
         create_info_content url now (totalAssets assets) st4) :: st4.fs }
       (some { url := url, output_dir := site,
               html_path := pathJoin site ("index.html".data),
               total_assets := totalAssets assets,
               downloaded := st5.downloaded_files.length,
               failed := st5.failed_downloads.length }, st5)) := by
  simp only [clone_website, hn]

theorem clone_website_rootFail {net : Net} {url : Str}
    (cfg : Config) (parseHtml : Str → Soup) (now output_dir : Str) (st : St)
    (hn : (net url 0).isFail = true) :
    clone_website cfg net parseHtml now url output_dir st =
      (none,
       { st with dirs := pathJoin output_dir (sanitize_filename (urlparse url).netloc) :: st.dirs }) := by
  cases h : net url 0 with
  | ok chunks => rw [h] at hn; simp [Attempt.isFail] at hn
  | failEarly e => simp only [clone_website, h]
  | failMid chunks e => simp only [clone_website, h]

/-- The dedup invariant is preserved by a whole `clone_website` run. -/
theorem clone_website_dedupInv (cfg : Config) (net : Net)
    (parseHtml : Str → Soup) (now url output_dir u : Str) (st : St)
    (h : DedupInv u st) :
    DedupInv u (clone_website cfg net parseHtml now url output_dir st).2 := by
  cases hn : net url 0 with
  | ok chunks =>
    rw [clone_website_ok cfg parseHtml now output_dir st hn]
    dsimp only
    exact foldl_dlStep_dedupInv cfg net _ u _ _
      (foldl_dlStep_dedupInv cfg net _ u _ _
        (foldl_cssStep_dedupInv cfg net _ u _ _ h))
  | failEarly e =>
    rw [clone_website_rootFail cfg parseHtml now output_dir st (by rw [hn]; rfl)]
    exact h
  | failMid chunks e =>
    rw [clone_website_rootFail cfg parseHtml now output_dir st (by rw [hn]; rfl)]
    exact h

/-- State growth plus the summary-count equations of a successful run. -/
theorem clone_website_summary (cfg : Config) (net : Net)
    (parseHtml : Str → Soup) (now url output_dir : Str) (st : St)
    (r : CloneResult) (st2 : St)
    (h : clone_website cfg net parseHtml now url output_dir st = (some r, st2)) :
    (∃ F, st2.failed_downloads = st.failed_downloads ++ F) ∧
    (∃ D, st2.downloaded_files = st.downloaded_files ++ D) ∧
    r.failed = st2.failed_downloads.length ∧
    r.downloaded = st2.downloaded_files.length := by
  cases hn : net url 0 with
  | failEarly e =>
    rw [clone_website_rootFail cfg parseHtml now output_dir st (by rw [hn]; rfl)] at h
    exact absurd (congrArg Prod.fst h) (by simp)
  | failMid chunks e =>
    rw [clone_website_rootFail cfg parseHtml now output_dir st (by rw [hn]; rfl)] at h
    exact absurd (congrArg Prod.fst h) (by simp)
  | ok chunks =>
    rw [clone_website_ok cfg parseHtml now output_dir st hn] at h
    dsimp only at h
    have h1 := congrArg Prod.fst h
    have h2 := congrArg Prod.snd h
    dsimp only at h1 h2
    have hgrow : GrowsOnly st st2 := by
      rw [← h2]
      exact ((foldl_cssStep_grows cfg net _ _ _).trans
        ((foldl_dlStep_grows cfg net _ _ _).trans
          (foldl_dlStep_grows cfg net _ _ _)))
    have hr : r =
        { url := url
          output_dir := pathJoin output_dir (sanitize_filename (urlparse url).netloc)
          html_path := pathJoin (pathJoin output_dir (sanitize_filename (urlparse url).netloc)) ("index.html".data)
          total_assets := totalAssets (extract_assets_from_html (parseHtml chunks.flatten) url)
          downloaded := st2.downloaded_files.length
          failed := st2.failed_downloads.length } := by
      rw [← h2]
      exact (Option.some.injEq _ _).mp h1.symm
    exact ⟨hgrow.1, hgrow.2, by rw [hr], by rw [hr]⟩

/-! ### Membership chains into the image download loop -/

theorem foldl_joinFilter_mono (base : Str) (v : Str) :
    ∀ (l : List Str) (acc : List Str), v ∈ acc →
      v ∈ l.foldl (fun acc s => if s ≠ [] then acc ++ [urljoin base s] else acc) acc := by
  intro l
  induction l with
  | nil => intro acc h; exact h
  | cons x l ih =>
    intro acc h
    simp only [List.foldl_cons]
    by_cases hx : x = []
    · simp only [hx]
      exact ih _ (by simpa using h)
    · exact ih _ (by simp [hx]; exact Or.inl h)

theorem foldl_joinFilter_mem (base : Str) :
    ∀ (l : List Str) (acc : List Str) (src : Str), src ∈ l → src ≠ [] →
      urljoin base src ∈
        l.foldl (fun acc s => if s ≠ [] then acc ++ [urljoin base s] else acc) acc := by
  intro l
  induction l with
  | nil => intro acc src h; simp at h
  | cons x l ih =>
    intro acc src hmem hne
    simp only [List.foldl_cons]
    rcases List.mem_cons.mp hmem with h | h
    · subst h
      apply foldl_joinFilter_mono
      simp [hne]
    · exact ih _ src h hne

/-- A non-empty `<img src>` contributes its joined URL to the extracted
image list. -/
theorem extract_images_mem (soup : Soup) (base src : Str)
    (h : src ∈ soup.imgs) (hne : src ≠ []) :
    urljoin base src ∈ (extract_assets_from_html soup base).images := by
  unfold extract_assets_from_html
  dsimp only
  apply List.mem_append_left
  apply List.mem_append_left
  exact foldl_joinFilter_mem base soup.imgs [] src h hne

theorem pySet_mono (v : Str) :
    ∀ (l : List Str) (acc : List Str), v ∈ acc →
      v ∈ l.foldl (fun acc u => if u ∈ acc then acc else acc ++ [u]) acc := by
  intro l
  induction l with
  | nil => intro acc h; exact h
  | cons x l ih =>
    intro acc h
    simp only [List.foldl_cons]
    by_cases hx : x ∈ acc
    · simp only [if_pos hx]
      exact ih _ h
    · simp only [if_neg hx]
      exact ih _ (List.mem_append_left _ h)

theorem pySet_mem (v : Str) : ∀ (l : List Str), v ∈ l → v ∈ pySet l := by
  have haux : ∀ (l : List Str) (acc : List Str), v ∈ l →
      v ∈ l.foldl (fun acc u => if u ∈ acc then acc else acc ++ [u]) acc := by
    intro l
    induction l with
    | nil => intro acc h; simp at h
    | cons x l ih =>
      intro acc hmem
      simp only [List.foldl_cons]
      rcases List.mem_cons.mp hmem with h | h
      · subst h
        by_cases hx : v ∈ acc
        · simp only [if_pos hx]
          exact pySet_mono v l acc hx
        · simp only [if_neg hx]
          exact pySet_mono v l _ (List.mem_append_right _ (List.mem_singleton.mpr rfl))
      · exact ih _ h
  intro l h
  exact haux l [] h

/-- Claim C4: `download_file` first consults `downloaded_files` and returns
success without any network activity (or any state change) for an
already-downloaded URL; consequently, over a whole `clone_website` run every
URL is successfully fetched at most once, whichever reference lists it occurs
in. -/
theorem claim_C4 (cfg : Config) (net : Net) (u : Str) :
    (∀ (lp : Str) (st : St), u ∈ st.downloaded_files →
      download_file cfg net u lp st = (true, st)) ∧
    (∀ (parseHtml : Str → Soup) (now url output_dir : Str),
      succCount u
        (clone_website cfg net parseHtml now url output_dir initSt).2.fetchLog
        ≤ 1) := by
  refine ⟨fun lp st h => download_file_mem cfg net u lp st h, ?_⟩
  intro parseHtml now url output_dir
  have h0 : DedupInv u initSt := ⟨by simp [succCount, initSt], fun _ => by simp [succCount, initSt]⟩
  exact (clone_website_dedupInv cfg net parseHtml now url output_dir u initSt h0).1

/-- Claim C4 witness: the skip branch at a state that already downloaded the
stylesheet URL, and the at-most-once bound on the concrete successful run. -/
theorem claim_C4_witness :
    download_file defaultConfig netCssOk exCssUrl ("p".data)
      { initSt with downloaded_files := [exCssUrl] }
      = (true, { initSt with downloaded_files := [exCssUrl] }) ∧
    succCount exCssUrl
      (clone_website defaultConfig netCssOk (fun _ => soupStylesheetOnly)
        ("2026-10-12 00:00:00".data) exPage ("result".data) initSt).2.fetchLog
      ≤ 1 :=
  ⟨(claim_C4 defaultConfig netCssOk exCssUrl).1 ("p".data)
      { initSt with downloaded_files := [exCssUrl] } (by simp),
   (claim_C4 defaultConfig netCssOk exCssUrl).2 (fun _ => soupStylesheetOnly)
      ("2026-10-12 00:00:00".data) exPage ("result".data)⟩

/-- Claim C8 amended: the record state (`downloaded_files`,
`failed_downloads`) is initialized at `WebCloner` construction, not per
`clone_website` call: a call only ever appends to the records it starts
with, and the returned summary counts the whole accumulated state — so a
second run on the same cloner includes the first run's records in its
summary.  (Run isolation in the CLI comes from `main.py` constructing a
fresh `WebCloningModule`, hence a fresh `WebCloner`, per menu selection.) -/
theorem claim_C8_amended (cfg : Config) (net : Net) (parseHtml : Str → Soup)
    (now url output_dir : Str) (st : St) (r : CloneResult) (st2 : St)
    (h : clone_website cfg net parseHtml now url output_dir st = (some r, st2)) :
    st.failed_downloads <+: st2.failed_downloads ∧
    st.downloaded_files <+: st2.downloaded_files ∧
    r.failed = st2.failed_downloads.length ∧
    r.downloaded = st2.downloaded_files.length := by
  obtain ⟨⟨F, hF⟩, ⟨D, hD⟩, h3, h4⟩ :=
    clone_website_summary cfg net parseHtml now url output_dir st r st2 h
  exact ⟨hF ▸ List.prefix_append _ _, hD ▸ List.prefix_append _ _, h3, h4⟩

/-- Claim C8 witness: the amended statement at the concrete second run. -/
theorem claim_C8_witness :
    runImgFail.2.failed_downloads <+: runSecond.2.failed_downloads ∧
    runImgFail.2.downloaded_files <+: runSecond.2.downloaded_files ∧
    (runSecond.1.getD default).failed = runSecond.2.failed_downloads.length ∧
    (runSecond.1.getD default).downloaded = runSecond.2.downloaded_files.length := by
  have h := claim_C8_amended defaultConfig netImgFail (fun _ => {})
    ("2026-10-12 00:00:00".data) ("https://two.com/".data) ("result".data)
    runImgFail.2 (runSecond.1.getD default) runSecond.2 (by decide)
  exact h

/-- Claim C10: when `download_file` fails mid-stream on every attempt, the
partially written chunks of the last attempt are left on disk at
`local_path` (no cleanup or rollback), while the URL is recorded in
`failed_downloads` and stays out of `downloaded_files`. -/
theorem claim_C10 (cfg : Config) (net : Net) (u lp : Str) (st : St)
    (hmax : 1 ≤ cfg.max_retries) (hu : u ∉ st.downloaded_files)
    (hf : ∀ k, k < cfg.max_retries → ∃ cs e, net u k = .failMid cs e) :
    (download_file cfg net u lp st).1 = false ∧
    fsLookup (download_file cfg net u lp st).2.fs lp
      = some ((net u (cfg.max_retries - 1)).chunks.flatten) ∧
    (u, (net u (cfg.max_retries - 1)).errMsg)
      ∈ (download_file cfg net u lp st).2.failed_downloads ∧
    u ∉ (download_file cfg net u lp st).2.downloaded_files := by
  have hfail : ∀ k, k < cfg.max_retries → (net u k).isFail = true := by
    intro k hk
    obtain ⟨cs, e, hn⟩ := hf k hk
    rw [hn]
    rfl
  obtain ⟨h1, -, -, h4, h5, -⟩ := download_file_allFail cfg net u lp st hmax hu hfail
  refine ⟨h1, download_file_failMid cfg net u lp st hmax hu hf, ?_, ?_⟩
  · rw [h4]
    exact List.mem_append_right _ (List.mem_singleton.mpr rfl)
  · rw [h5]
    exact hu

/-- Claim C10 witness: a concrete mid-stream failure leaves `"partial"` on
disk and records the failure. -/
theorem claim_C10_witness :
    (download_file defaultConfig (fun _ _ => .failMid ["par".data, "tial".data] ("reset".data))
      ("https://ex.com/big.bin".data) ("result/ex.com/assets/big.bin".data) initSt).1 = false ∧
    fsLookup (download_file defaultConfig (fun _ _ => .failMid ["par".data, "tial".data] ("reset".data))
      ("https://ex.com/big.bin".data) ("result/ex.com/assets/big.bin".data) initSt).2.fs
      ("result/ex.com/assets/big.bin".data)
      = some (((fun (_ : Str) (_ : Nat) => Attempt.failMid ["par".data, "tial".data] ("reset".data))
          ("https://ex.com/big.bin".data) (defaultConfig.max_retries - 1)).chunks.flatten) ∧
    (("https://ex.com/big.bin".data),
        ((fun (_ : Str) (_ : Nat) => Attempt.failMid ["par".data, "tial".data] ("reset".data))
          ("https://ex.com/big.bin".data) (defaultConfig.max_retries - 1)).errMsg)
      ∈ (download_file defaultConfig (fun _ _ => .failMid ["par".data, "tial".data] ("reset".data))
        ("https://ex.com/big.bin".data) ("result/ex.com/assets/big.bin".data) initSt).2.failed_downloads ∧
    ("https://ex.com/big.bin".data) ∉ (download_file defaultConfig (fun _ _ => .failMid ["par".data, "tial".data] ("reset".data))
      ("https://ex.com/big.bin".data) ("result/ex.com/assets/big.bin".data) initSt).2.downloaded_files :=
  claim_C10 defaultConfig (fun _ _ => .failMid ["par".data, "tial".data] ("reset".data))
    ("https://ex.com/big.bin".data) ("result/ex.com/assets/big.bin".data) initSt
    (by decide) (by simp [initSt]) (fun k _ => ⟨["par".data, "tial".data], "reset".data, rfl⟩)

/-! ### Manifest lemmas -/

theorem failedSection_infix (u e : Str) (failed : List (Str × Str))
    (h : (u, e) ∈ failed) :
    ("- ".data ++ u ++ " - ".data ++ e ++ ['\n']) <:+: failedSection failed := by
  induction failed with
  | nil => simp at h
  | cons x t ih =>
    have hne : x :: t ≠ ([] : List (Str × Str)) := by simp
    rcases List.mem_cons.mp h with h | h
    · refine ⟨[], (t.map (fun p => "- ".data ++ p.1 ++ " - ".data ++ p.2 ++ ['\n'])).flatten, ?_⟩
      unfold failedSection
      rw [if_neg hne]
      rw [← h]
      simp
    · obtain ⟨s, t2, hst⟩ := ih h
      have ht : t ≠ [] := by
        rintro rfl
        simp at h
      unfold failedSection at hst
      rw [if_neg ht] at hst
      refine ⟨("- ".data ++ x.1 ++ " - ".data ++ x.2 ++ ['\n']) ++ s, t2, ?_⟩
      unfold failedSection
      rw [if_neg hne]
      simp only [List.map_cons, List.flatten_cons]
      rw [← hst]
      simp [List.append_assoc]

theorem create_info_infix (url now : Str) (total : Nat) (st : St) (u e : Str)
    (h : (u, e) ∈ st.failed_downloads) :
    ("- ".data ++ u ++ " - ".data ++ e ++ ['\n'])
      <:+: create_info_content url now total st := by
  obtain ⟨s, t, hst⟩ := failedSection_infix u e st.failed_downloads h
  refine ⟨infoHeader url now total st ++ s, t ++ infoFooter, ?_⟩
  unfold create_info_content
  rw [← hst]
  simp [List.append_assoc]

/-- Claim C5: `download_file` retries a failing download for exactly
`max_retries` attempts (default 3: `defaultConfig.max_retries = 3`) with a
fixed 1-second sleep between consecutive attempts; on final failure it
returns a `False` result (the model is a total function — nothing is raised
past the boundary) and appends `(url, error)` with the last attempt's error
to `failed_downloads`; and for a non-empty error string, the
`clone_info.md` text contains the manifest line `- url - error`. -/
theorem claim_C5 (cfg : Config) (net : Net) (u lp now page : Str) (st : St)
    (total : Nat)
    (hmax : 1 ≤ cfg.max_retries) (hu : u ∉ st.downloaded_files)
    (hf : ∀ k, k < cfg.max_retries → (net u k).isFail = true)
    (herr : (net u (cfg.max_retries - 1)).errMsg ≠ []) :
    defaultConfig.max_retries = 3 ∧
    (download_file cfg net u lp st).1 = false ∧
    (download_file cfg net u lp st).2.fetchLog
      = st.fetchLog ++ List.replicate cfg.max_retries (u, false) ∧
    (download_file cfg net u lp st).2.sleeps
      = st.sleeps ++ List.replicate (cfg.max_retries - 1) 1 ∧
    (download_file cfg net u lp st).2.failed_downloads
      = st.failed_downloads ++ [(u, (net u (cfg.max_retries - 1)).errMsg)] ∧
    ((net u (cfg.max_retries - 1)).errMsg ≠ [] ∧
      ("- ".data ++ u ++ " - ".data ++ (net u (cfg.max_retries - 1)).errMsg ++ ['\n'])
        <:+: create_info_content page now total (download_file cfg net u lp st).2) := by
  obtain ⟨h1, h2, h3, h4, -, -⟩ := download_file_allFail cfg net u lp st hmax hu hf
  refine ⟨rfl, h1, h2, h3, h4, herr, ?_⟩
  apply create_info_infix
  rw [h4]
  exact List.mem_append_right _ (List.mem_singleton.mpr rfl)

/-- Claim C5 witness: the retry/record/manifest behaviour at a concrete
always-failing URL. -/
theorem claim_C5_witness :
    (download_file defaultConfig (fun _ _ => .failEarly ("boom".data))
      ("https://ex.com/a.png".data) ("result/ex.com/images/a.png".data) initSt).1 = false ∧
    (download_file defaultConfig (fun _ _ => .failEarly ("boom".data))
      ("https://ex.com/a.png".data) ("result/ex.com/images/a.png".data) initSt).2.fetchLog
      = initSt.fetchLog ++ List.replicate defaultConfig.max_retries (("https://ex.com/a.png".data), false) ∧
    (download_file defaultConfig (fun _ _ => .failEarly ("boom".data))
      ("https://ex.com/a.png".data) ("result/ex.com/images/a.png".data) initSt).2.sleeps
      = initSt.sleeps ++ List.replicate (defaultConfig.max_retries - 1) 1 ∧
    ("- ".data ++ ("https://ex.com/a.png".data) ++ " - ".data
        ++ ((fun (_ : Str) (_ : Nat) => Attempt.failEarly ("boom".data))
            ("https://ex.com/a.png".data) (defaultConfig.max_retries - 1)).errMsg ++ ['\n'])
      <:+: create_info_content ("https://ex.com/".data) ("2026-10-12 00:00:00".data) 1
        (download_file defaultConfig (fun _ _ => .failEarly ("boom".data))
          ("https://ex.com/a.png".data) ("result/ex.com/images/a.png".data) initSt).2 := by
  have h := claim_C5 defaultConfig (fun _ _ => .failEarly ("boom".data))
    ("https://ex.com/a.png".data) ("result/ex.com/images/a.png".data)
    ("2026-10-12 00:00:00".data) ("https://ex.com/".data) initSt 1
    (by decide) (by simp [initSt]) (fun k _ => rfl) (by decide)
  exact ⟨h.2.1, h.2.2.1, h.2.2.2.1, h.2.2.2.2.2.2⟩

/-- Claim C3 amended: a root-HTML `<img>` reference whose download fails on
every attempt is still rewritten — like every other reference — to its
mapped local relative path (`update_html_paths` rewrites unconditionally,
it never consults the download records), not left at its original remote
URL; the run continues (a result is returned) and the failure is recorded
with the last attempt's error. -/
theorem claim_C3_amended (cfg : Config) (net : Net) (parseHtml : Str → Soup)
    (now page output_dir src : Str) (chunks : List Str)
    (hroot : net page 0 = .ok chunks)
    (hmax : 1 ≤ cfg.max_retries)
    (hsrc : src ∈ (parseHtml chunks.flatten).imgs) (hne : src ≠ [])
    (hfail : ∀ k, (net (urljoin page src) k).isFail = true) :
    (clone_website cfg net parseHtml now page output_dir initSt).1.isSome = true ∧
    (urljoin page src, (net (urljoin page src) (cfg.max_retries - 1)).errMsg)
      ∈ (clone_website cfg net parseHtml now page output_dir initSt).2.failed_downloads ∧
    (clone_website cfg net parseHtml now page output_dir initSt).2.rewrittenHtml
      = some (update_html_paths (parseHtml chunks.flatten) page
          (pathJoin output_dir (sanitize_filename (urlparse page).netloc))) ∧
    rewriteRef page (pathJoin output_dir (sanitize_filename (urlparse page).netloc)) src
      ∈ (update_html_paths (parseHtml chunks.flatten) page
          (pathJoin output_dir (sanitize_filename (urlparse page).netloc))).imgs := by
  rw [clone_website_ok cfg parseHtml now output_dir initSt hroot]
  dsimp only
  refine ⟨rfl, ?_, rfl, ?_⟩
  · have h1 : urljoin page src
        ∈ (extract_assets_from_html (parseHtml chunks.flatten) page).images :=
      extract_images_mem (parseHtml chunks.flatten) page src hsrc hne
    have h3 : urljoin page src ∉
        ((extract_assets_from_html (parseHtml chunks.flatten) page).css.foldl
          (cssStep cfg net (pathJoin output_dir (sanitize_filename (urlparse page).netloc)))
          ([], { initSt with dirs := pathJoin output_dir (sanitize_filename (urlparse page).netloc) :: initSt.dirs })).2.downloaded_files :=
      foldl_cssStep_notDownloaded cfg net _ _ hfail _ _ (by simp [initSt])
    have h4 : urljoin page src ∉
        ((extract_assets_from_html (parseHtml chunks.flatten) page).js.foldl
          (dlStep cfg net (pathJoin output_dir (sanitize_filename (urlparse page).netloc)))
          ((extract_assets_from_html (parseHtml chunks.flatten) page).css.foldl
            (cssStep cfg net (pathJoin output_dir (sanitize_filename (urlparse page).netloc)))
            ([], { initSt with dirs := pathJoin output_dir (sanitize_filename (urlparse page).netloc) :: initSt.dirs })).2).downloaded_files :=
      foldl_dlStep_notDownloaded cfg net _ _ hfail _ _ h3
    have h2 : urljoin page src ∈ pySet
        ((extract_assets_from_html (parseHtml chunks.flatten) page).images ++
          ((extract_assets_from_html (parseHtml chunks.flatten) page).css.foldl
            (cssStep cfg net (pathJoin output_dir (sanitize_filename (urlparse page).netloc)))
            ([], { initSt with dirs := pathJoin output_dir (sanitize_filename (urlparse page).netloc) :: initSt.dirs })).1) :=
      pySet_mem _ _ (List.mem_append_left _ h1)
    exact foldl_dlStep_fail_mem cfg net
      (pathJoin output_dir (sanitize_filename (urlparse page).netloc))
      (urljoin page src) hmax hfail _ _ h2 h4
  · unfold update_html_paths
    dsimp only
    exact List.mem_map.mpr ⟨src, hsrc, by simp [hne]⟩

/-- Claim C3 amended witness: the concrete failing-image run. -/
theorem claim_C3_witness :
    runImgFail.1.isSome = true ∧
    (urljoin exPage ("/a.png".data),
        (netImgFail (urljoin exPage ("/a.png".data)) (defaultConfig.max_retries - 1)).errMsg)
      ∈ runImgFail.2.failed_downloads ∧
    runImgFail.2.rewrittenHtml
      = some (update_html_paths soupOneImg exPage
          (pathJoin ("result".data) (sanitize_filename (urlparse exPage).netloc))) ∧
    rewriteRef exPage (pathJoin ("result".data) (sanitize_filename (urlparse exPage).netloc))
        ("/a.png".data)
      ∈ (update_html_paths soupOneImg exPage
          (pathJoin ("result".data) (sanitize_filename (urlparse exPage).netloc))).imgs :=
  claim_C3_amended defaultConfig netImgFail (fun _ => soupOneImg)
    ("2026-10-12 00:00:00".data) exPage ("result".data) ("/a.png".data) ["x".data]
    rfl (by decide) (by simp [soupOneImg]) (by decide) (fun _ => rfl)

/-! ### data: URI lemmas -/

theorem urlparse_scheme_http (rest : Str) :
    (urlparse ("http://".data ++ rest)).scheme = "http".data := rfl

theorem urlparse_scheme_https (rest : Str) :
    (urlparse ("https://".data ++ rest)).scheme = "https".data := rfl

theorem isPrefixOf_data_false_of_head {u : Str} {c : Char}
    (h : u.head? = some c) (hc : c ≠ 'd') :
    ("data:".data).isPrefixOf u = false := by
  cases u with
  | nil => simp at h
  | cons c2 t =>
    simp only [List.head?_cons, Option.some.injEq] at h
    have hc2 : c2 ≠ 'd' := by rw [h]; exact hc
    show (('d' == c2) && _) = false
    simp [Ne.symm hc2]

theorem unsplitResolved_shape (sc nl : Str) (res : List Str) :
    ∃ t, unsplitResolved sc nl res = sc ++ ':' :: t := by
  refine ⟨'/' :: '/' :: (nl ++ (if sepJoin res = [] then "/".data else sepJoin res)), ?_⟩
  unfold unsplitResolved
  simp [List.append_assoc]

theorem guard_false_scheme_eq {A B : Str}
    (h : ¬(decide (A ≠ B) || !usesRelative A) = true) : A = B := by
  have h2 := Bool.eq_false_iff.mpr h
  rcases Bool.or_eq_false_iff.mp h2 with ⟨hd, -⟩
  exact not_not.mp (of_decide_eq_false hd)

/-- Every result of `urljoin` is the reference itself, the base itself, or a
string beginning with the base's scheme and a colon. -/
theorem urljoin_shape (base m : Str) :
    urljoin base m = m ∨ urljoin base m = base ∨
    ∃ t, urljoin base m = (urlparse base).scheme ++ ':' :: t := by
  unfold urljoin
  dsimp only
  by_cases h1 : base = []
  · rw [if_pos h1]; exact Or.inl rfl
  rw [if_neg h1]
  by_cases h2 : m = []
  · rw [if_pos h2]; exact Or.inr (Or.inl rfl)
  rw [if_neg h2]
  by_cases h0 : (schemeSplit m).isSome = true
  · rw [if_pos h0]
    by_cases h3 : (decide ((urlparse m).scheme ≠ (urlparse base).scheme)
        || !usesRelative (urlparse m).scheme) = true
    · rw [if_pos h3]; exact Or.inl rfl
    · rw [if_neg h3]
      have hsc : (urlparse m).scheme = (urlparse base).scheme :=
        guard_false_scheme_eq h3
      by_cases h4 : (urlparse m).netloc ≠ []
      · rw [if_pos h4]
        exact Or.inr (Or.inr ⟨'/' :: '/' :: ((urlparse m).netloc ++ (urlparse m).path),
          by rw [hsc]; simp [List.append_assoc]⟩)
      · rw [if_neg h4]
        by_cases h5 : (urlparse m).path = []
        · rw [if_pos h5]; exact Or.inr (Or.inl rfl)
        · rw [if_neg h5]
          by_cases h6 : (urlparse m).path.head? = some '/'
          · rw [if_pos h6]
            obtain ⟨t, ht⟩ := unsplitResolved_shape (urlparse m).scheme
              (urlparse base).netloc
              (resolveSegments (splitOnChar '/' (urlparse m).path))
            exact Or.inr (Or.inr ⟨t, by rw [ht, hsc]⟩)
          · rw [if_neg h6]
            obtain ⟨t, ht⟩ := unsplitResolved_shape (urlparse m).scheme
              (urlparse base).netloc _
            exact Or.inr (Or.inr ⟨t, by rw [ht, hsc]⟩)
  · rw [if_neg h0]
    by_cases h3 : (decide ((urlparse base).scheme ≠ (urlparse base).scheme)
        || !usesRelative (urlparse base).scheme) = true
    · rw [if_pos h3]; exact Or.inl rfl
    · rw [if_neg h3]
      by_cases h4 : (urlparse m).netloc ≠ []
      · rw [if_pos h4]
        exact Or.inr (Or.inr ⟨'/' :: '/' :: ((urlparse m).netloc ++ (urlparse m).path),
          by simp [List.append_assoc]⟩)
      · rw [if_neg h4]
        by_cases h5 : (urlparse m).path = []
        · rw [if_pos h5]; exact Or.inr (Or.inl rfl)
        · rw [if_neg h5]
          by_cases h6 : (urlparse m).path.head? = some '/'
          · rw [if_pos h6]
            obtain ⟨t, ht⟩ := unsplitResolved_shape (urlparse base).scheme
              (urlparse base).netloc
              (resolveSegments (splitOnChar '/' (urlparse m).path))
            exact Or.inr (Or.inr ⟨t, by rw [ht]⟩)
          · rw [if_neg h6]
            obtain ⟨t, ht⟩ := unsplitResolved_shape (urlparse base).scheme
              (urlparse base).netloc _
            exact Or.inr (Or.inr ⟨t, by rw [ht]⟩)

theorem isPrefixOf_data_false_of_http {u : Str}
    (h : ("http://".data).isPrefixOf u = true ∨ ("https://".data).isPrefixOf u = true) :
    ("data:".data).isPrefixOf u = false := by
  rcases h with h | h <;>
  · obtain ⟨t, ht⟩ := List.isPrefixOf_iff_prefix.mp h
    apply isPrefixOf_data_false_of_head (c := 'h') _ (by decide)
    rw [← ht]
    rfl

theorem urlparse_scheme_of_http {base : Str}
    (hb : ("http://".data).isPrefixOf base = true ∨
      ("https://".data).isPrefixOf base = true) :
    (urlparse base).scheme = "http".data ∨ (urlparse base).scheme = "https".data := by
  rcases hb with h | h
  · obtain ⟨t, ht⟩ := List.isPrefixOf_iff_prefix.mp h
    rw [← ht]
    exact Or.inl (urlparse_scheme_http t)
  · obtain ⟨t, ht⟩ := List.isPrefixOf_iff_prefix.mp h
    rw [← ht]
    exact Or.inr (urlparse_scheme_https t)

/-- Joining a non-`data:` reference against an `http(s)` base never produces
a `data:`-prefixed URL. -/
theorem urljoin_data_free {base m : Str}
    (hb : ("http://".data).isPrefixOf base = true ∨
      ("https://".data).isPrefixOf base = true)
    (hm : ("data:".data).isPrefixOf m = false) :
    ("data:".data).isPrefixOf (urljoin base m) = false := by
  rcases urljoin_shape base m with h | h | ⟨t, h⟩
  · rw [h]; exact hm
  · rw [h]; exact isPrefixOf_data_false_of_http hb
  · rw [h]
    rcases urlparse_scheme_of_http hb with hs | hs <;> rw [hs]
    · exact isPrefixOf_data_false_of_head (c := 'h') rfl (by decide)
    · exact isPrefixOf_data_false_of_head (c := 'h') rfl (by decide)

/-- The CSS extractor never emits a `data:` URL. -/
theorem extract_css_assets_no_data (css base : Str)
    (hb : ("http://".data).isPrefixOf base = true ∨
      ("https://".data).isPrefixOf base = true) :
    ∀ u ∈ extract_css_assets css base, ("data:".data).isPrefixOf u = false := by
  unfold extract_css_assets
  have haux : ∀ (ms : List Str) (acc : List Str),
      (∀ u ∈ acc, ("data:".data).isPrefixOf u = false) →
      ∀ u ∈ ms.foldl (fun assets m =>
        if !(("data:".data).isPrefixOf m || ("http://".data).isPrefixOf m ||
            ("https://".data).isPrefixOf m) then
          assets ++ [urljoin base m]
        else if ("http://".data).isPrefixOf m || ("https://".data).isPrefixOf m then
          assets ++ [m]
        else assets) acc,
      ("data:".data).isPrefixOf u = false := by
    intro ms
    induction ms with
    | nil => intro acc hacc u hu; exact hacc u hu
    | cons m ms ih =>
      intro acc hacc u hu
      simp only [List.foldl_cons] at hu
      by_cases hc1 : (("data:".data).isPrefixOf m || ("http://".data).isPrefixOf m ||
          ("https://".data).isPrefixOf m) = false
      · rw [hc1] at hu
        simp only [Bool.not_false, if_true] at hu
        refine ih _ ?_ u hu
        intro v hv
        rcases List.mem_append.mp hv with hv | hv
        · exact hacc v hv
        · rw [List.mem_singleton.mp hv]
          have hm : ("data:".data).isPrefixOf m = false := by
            rcases Bool.or_eq_false_iff.mp hc1 with ⟨h1, -⟩
            rcases Bool.or_eq_false_iff.mp h1 with ⟨h2, -⟩
            exact h2
          exact urljoin_data_free hb hm
      · have hc1t : (("data:".data).isPrefixOf m || ("http://".data).isPrefixOf m ||
            ("https://".data).isPrefixOf m) = true := by
          cases hx : (("data:".data).isPrefixOf m || ("http://".data).isPrefixOf m ||
              ("https://".data).isPrefixOf m)
          · exact absurd hx hc1
          · rfl
        rw [hc1t] at hu
        simp only [Bool.not_true, if_false] at hu
        by_cases hc2 : (("http://".data).isPrefixOf m ||
            ("https://".data).isPrefixOf m) = true
        · rw [hc2] at hu
          simp only [if_true] at hu
          refine ih _ ?_ u hu
          intro v hv
          rcases List.mem_append.mp hv with hv | hv
          · exact hacc v hv
          · rw [List.mem_singleton.mp hv]
            exact isPrefixOf_data_false_of_http (Bool.or_eq_true_iff.mp hc2)
        · have hc2f : (("http://".data).isPrefixOf m ||
              ("https://".data).isPrefixOf m) = false := by
            cases hx : (("http://".data).isPrefixOf m || ("https://".data).isPrefixOf m)
            · rfl
            · exact absurd hx hc2
          rw [hc2f] at hu
          rw [if_neg (by simp : ¬(false = true))] at hu
          exact ih _ hacc u hu
  intro u hu
  exact haux (cssFindall css) [] (by simp) u hu

/-- Claim C6: `data:` URIs in CSS are never emitted as asset URLs by the
extractor (so the image loop, which downloads only extracted URLs, never
fetches them), and the rewriter's `replace_url` returns every `data:` match
unchanged (`match.group(0)`) — in particular the whole rewritten text of a
stylesheet containing a `data:` occurrence keeps it byte-for-byte. -/
theorem claim_C6 (css base output_dir : Str)
    (hb : ("http://".data).isPrefixOf base = true ∨
      ("https://".data).isPrefixOf base = true) :
    (∀ u ∈ extract_css_assets css base, ("data:".data).isPrefixOf u = false) ∧
    (∀ whole grp, ("data:".data).isPrefixOf grp = true →
      replace_url base output_dir whole grp = whole) ∧
    update_css_paths dataCssEx base output_dir = dataCssEx := by
  refine ⟨extract_css_assets_no_data css base hb, ?_, ?_⟩
  · intro whole grp hg
    unfold replace_url
    rw [hg]
    rfl
  · rfl

/-- Claim C6 witness: the extractor output of the concrete stylesheet
contains only the external URL (never the `data:` entry), and the rewriter
keeps the `data:` occurrence unchanged. -/
theorem claim_C6_witness :
    ("data:".data).isPrefixOf ("http://cdn.com/x.png".data) = false ∧
    replace_url exCssUrl ("result/ex.com".data)
      ("url(data:image/png;base64,AAA)".data) ("data:image/png;base64,AAA".data)
      = ("url(data:image/png;base64,AAA)".data) ∧
    update_css_paths dataCssEx exCssUrl ("result/ex.com".data) = dataCssEx := by
  have h := claim_C6 dataCssEx exCssUrl ("result/ex.com".data) (Or.inr (by decide))
  exact ⟨h.1 ("http://cdn.com/x.png".data) (by decide), h.2.1 _ _ (by decide), h.2.2⟩

/-! ### sanitize_filename lemmas -/

theorem splitext_append (p : Str) : (splitext p).1 ++ (splitext p).2 = p := by
  unfold splitext
  cases h : lastIndexOf '.' p with
  | none => simp
  | some d =>
    dsimp only
    split
    · exact List.take_append_drop d p
    · simp

theorem splitext_fst_sublist (p : Str) : List.Sublist (splitext p).1 p := by
  unfold splitext
  cases h : lastIndexOf '.' p with
  | none => exact List.Sublist.refl p
  | some d =>
    dsimp only
    split
    · exact List.take_sublist d p
    · exact List.Sublist.refl p

theorem splitext_snd_sublist (p : Str) : List.Sublist (splitext p).2 p := by
  unfold splitext
  cases h : lastIndexOf '.' p with
  | none => exact List.nil_sublist p
  | some d =>
    dsimp only
    split
    · exact List.drop_sublist d p
    · exact List.nil_sublist p

theorem pyLStrip_sublist (cs : List Char) (s : Str) : List.Sublist (pyLStrip cs s) s :=
  List.dropWhile_sublist _

theorem pyRStrip_sublist (cs : List Char) (s : Str) : List.Sublist (pyRStrip cs s) s := by
  unfold pyRStrip
  have h := (pyLStrip_sublist cs s.reverse).reverse
  simpa using h

theorem pyStrip_sublist (cs : List Char) (s : Str) : List.Sublist (pyStrip cs s) s :=
  (pyRStrip_sublist cs (pyLStrip cs s)).trans (pyLStrip_sublist cs s)

theorem pySliceTo_sublist (s : Str) (k : Int) : List.Sublist (pySliceTo s k) s := by
  unfold pySliceTo
  exact List.take_sublist _ s

theorem pySliceTo_length_le (s : Str) (k : Int) (hk : 0 ≤ k) :
    (pySliceTo s k).length ≤ k.toNat := by
  unfold pySliceTo
  rw [if_neg (by omega : ¬ k < 0)]
  simp [List.length_take]

/-- Every character of the sanitized name comes from the substituted and
stripped input or from the literal `unnamed_file`. -/
theorem sanitize_filename_chars_sub (f : Str) :
    ∀ c ∈ sanitize_filename f,
      c ∈ sanitizedBase f ∨ c ∈ ("unnamed_file".data) := by
  intro c hc
  unfold sanitize_filename at hc
  dsimp only at hc
  split at hc
  · split at hc
    · exact Or.inr hc
    · rcases List.mem_append.mp hc with hc | hc
      · exact Or.inl ((splitext_fst_sublist (sanitizedBase f)).subset
          ((pySliceTo_sublist _ _).subset hc))
      · exact Or.inl ((splitext_snd_sublist (sanitizedBase f)).subset hc)
  · split at hc
    · exact Or.inr hc
    · exact Or.inl hc

theorem sanitizedBase_chars (f : Str) :
    ∀ c ∈ sanitizedBase f, c ∉ ['<', '>', ':', '"', '/', '\\', '|', '?', '*'] := by
  intro c hc
  have hc1 : c ∈ f.map (fun c =>
      if c ∈ ['<', '>', ':', '"', '/', '\\', '|', '?', '*'] then '_' else c) :=
    (pyStrip_sublist _ _).subset hc
  obtain ⟨a, -, ha⟩ := List.mem_map.mp hc1
  by_cases hil : a ∈ ['<', '>', ':', '"', '/', '\\', '|', '?', '*']
  · rw [if_pos hil] at ha
    rw [← ha]
    decide
  · rw [if_neg hil] at ha
    rw [← ha]
    exact hil

/-- Claim C7 amended: `sanitize_filename` replaces every illegal character
`<>:"/\\|?*` (no output character is illegal), returns `unnamed_file` when the
substituted-and-stripped input is empty and a non-empty name otherwise,
always keeps the extension of the stripped input as a suffix, and truncates
to at most 200 characters *provided the extension itself is at most 200
characters long* — when the extension alone exceeds 200 characters the
Python slice `name[:200-len(ext)]` has a negative stop and the result keeps
the whole extension, exceeding 200 characters. -/
theorem claim_C7_amended (f : Str) :
    sanitize_filename f ≠ [] ∧
    (∀ c ∈ sanitize_filename f,
      c ∉ ['<', '>', ':', '"', '/', '\\', '|', '?', '*']) ∧
    (sanitizedBase f = [] → sanitize_filename f = "unnamed_file".data) ∧
    ((splitext (sanitizedBase f)).2.length ≤ 200 →
      (sanitize_filename f).length ≤ 200) ∧
    (splitext (sanitizedBase f)).2 <:+ sanitize_filename f := by
  refine ⟨?_, ?_, ?_, ?_, ?_⟩
  · unfold sanitize_filename
    dsimp only
    split
    · split
      · decide
      · rename_i h
        exact h
    · split
      · decide
      · rename_i h
        exact h
  · intro c hc
    rcases sanitize_filename_chars_sub f c hc with h | h
    · exact sanitizedBase_chars f c h
    · fin_cases h <;> decide
  · intro h
    unfold sanitize_filename
    dsimp only
    rw [if_neg (by rw [h]; decide : ¬ 200 < (sanitizedBase f).length), h]
    rfl
  · intro h
    unfold sanitize_filename
    dsimp only
    split
    · split
      · decide
      · rw [List.length_append]
        have hs := pySliceTo_length_le (splitext (sanitizedBase f)).1
          (200 - ((splitext (sanitizedBase f)).2.length : Int)) (by omega)
        omega
    · rename_i hlen
      split
      · decide
      · omega
  · unfold sanitize_filename
    dsimp only
    split
    · split
      · rename_i hnil
        rw [(List.append_eq_nil.mp hnil).2]
        exact List.nil_suffix
      · exact List.suffix_append _ _
    · rename_i hlen
      split
      · rename_i hnil
        rw [hnil] at hlen ⊢
        rw [show (splitext ([] : Str)).2 = [] from rfl]
        exact List.nil_suffix
      · conv_rhs => rw [← splitext_append (sanitizedBase f)]
        exact List.suffix_append _ _

/-- Claim C7 witness: the boundary input `"a"*300 + ".png"` maps to a name
of at most 200 characters still ending in `.png`. -/
theorem claim_C7_witness :
    (splitext (sanitizedBase aPng300)).2 = ".png".data ∧
    (sanitize_filename aPng300).length ≤ 200 ∧
    (".png".data) <:+ sanitize_filename aPng300 := by
  have h := claim_C7_amended aPng300
  refine ⟨by decide, h.2.2.2.1 (by decide), ?_⟩
  have hs := h.2.2.2.2
  rw [show (splitext (sanitizedBase aPng300)).2 = ".png".data from by decide] at hs
  exact hs

end WebCloner
